import Mathlib

/-!
# Verification of the spotgen entry-resolution and collection pipeline

A shallow embedding, in Lean 4, of the JavaScript sources of the spotgen
playlist generator:

* `lib/sort.js` — the stable-sort / comparator library,
* `lib/track.js` — the `Track` entry and its staged fallback search,
* `lib/artist.js` — the `Artist` entry (album fetching, ranking, filtering),
* `lib/top.js` / `lib/similar.js` — top-tracks and similar-artists entries,
* `lib/collection.js` — the collection pipeline (ordering and rendering),
* `lib/util.js` — string clean-up utilities.

JavaScript strings are modelled as `List Char` (so all string operations are
executable and provable by structural induction).  JavaScript numbers that
occur here are integers, modelled as `Int`/`Nat`.  Fallible asynchronous code
(promise chains with `.catch`) is modelled in `Except Unit`: `Except.error ()`
is a rejected promise (or a thrown exception), `.ok` a fulfilled one.
External collaborators (the Spotify catalog client, the last.fm client, the
`string-similarity` library) are passed in as oracle functions.
-/

/-! ## JavaScript string model (`List Char`) -/

/-- Shorthand for converting a Lean string literal into the `List Char`
model of JavaScript strings. -/
def toL (s : String) : List Char := s.toList

/-- The whitespace characters matched by JavaScript's `\s` on the ASCII
fragment: tab, LF, VT, FF, CR and space. -/
def jsIsSpace (c : Char) : Bool :=
  c.toNat = 9 || c.toNat = 10 || c.toNat = 11 || c.toNat = 12 ||
  c.toNat = 13 || c.toNat = 32

/-- `String.prototype.toLowerCase` on the ASCII fragment: the letters
`A`–`Z` (code points 65–90) are shifted by 32, all other characters are
unchanged. -/
def jsToLower (c : Char) : Char :=
  if 65 ≤ c.toNat ∧ c.toNat ≤ 90 then Char.ofNat (c.toNat + 32) else c

/-- Lower-case an entire string. -/
def lowerStr (s : List Char) : List Char := s.map jsToLower

/-- Remove leading whitespace. -/
def trimLeftWs (s : List Char) : List Char := s.dropWhile jsIsSpace

/-- `String.prototype.trim`: remove whitespace from both ends. -/
def jsTrim (s : List Char) : List Char :=
  ((s.dropWhile jsIsSpace).reverse.dropWhile jsIsSpace).reverse

/-- The word characters of JavaScript's `\w`: letters, digits and `_`. -/
def isWordChar (c : Char) : Bool :=
  (65 ≤ c.toNat && c.toNat ≤ 90) || (97 ≤ c.toNat && c.toNat ≤ 122) ||
  (48 ≤ c.toNat && c.toNat ≤ 57) || c.toNat = 95

/-- `String.prototype.includes`: whether `q` occurs as a contiguous
substring of the second argument. -/
def hasSub (q : List Char) : List Char → Bool
  | [] => q.isEmpty
  | c :: t => q.isPrefixOf (c :: t) || hasSub q t

/-- JavaScript's `<` on two strings: code-unit lexicographic order. -/
def lexLt : List Char → List Char → Bool
  | [], [] => false
  | [], _ :: _ => true
  | _ :: _, [] => false
  | a :: as, b :: bs => if a < b then true else if b < a then false else lexLt as bs

/-! ## `lib/sort.js` — the stable sort (lines 13–31)

```js
function sort(arr, fn) {
    fn = fn || sort.ascending();
    let i = 0;
    let pairs = arr.map((x) => ({ idx: i++, val: x }));
    pairs = pairs.sort((a, b) => {
        const x = fn(a.val, b.val);
        if (x) { return x; }
        return a.idx < b.idx ? -1 : a.idx > b.idx ? 1 : 0;
    });
    for (i = 0; i < arr.length; i++) { arr[i] = pairs[i].val; }
    return arr;
}
```

The elements are paired with their original index (`enumF 0 arr` below) and
handed to `Array.prototype.sort` with the comparator `pairCmp fn`: the
caller's comparator, with the original index as the final tie-break.  Since
the index tie-break makes `pairCmp fn` antisymmetric whenever `fn` is a
consistent comparator, the array sorted with respect to it is the *unique*
permutation sorted by `pairCmp fn`; hence any correct implementation of
`Array.prototype.sort` (ES2019 requires a stable, comparator-consistent
sort) produces the same list as the insertion sort used here. -/

/-- Pair each element with its original index, starting at `i`
(the `arr.map((x) => ({idx: i++, val: x}))` of `sort`). -/
def enumF : Nat → List α → List (Nat × α)
  | _, [] => []
  | i, x :: xs => (i, x) :: enumF (i + 1) xs

/-- The comparator handed to `Array.prototype.sort` by `sort` (lines 20–26):
the caller's comparison value if it is nonzero, otherwise the original
indices decide. -/
def pairCmp (fn : α → α → Int) (a b : Nat × α) : Int :=
  let x := fn a.2 b.2
  if x ≠ 0 then x
  else if a.1 < b.1 then -1 else if a.1 > b.1 then 1 else 0

/-- Insert `x` into `l`, before the first element `y` with `r x y`. -/
def orderedInsertJs (r : α → α → Bool) (x : α) : List α → List α
  | [] => [x]
  | y :: ys => if r x y then x :: y :: ys else y :: orderedInsertJs r x ys

/-- Insertion sort with respect to a boolean relation. -/
def insSort (r : α → α → Bool) : List α → List α
  | [] => []
  | x :: xs => orderedInsertJs r x (insSort r xs)

/-- The sorted index/value pairs built by `sort` (lines 16–26). -/
def sortPairs (fn : α → α → Int) (arr : List α) : List (Nat × α) :=
  insSort (fun a b => decide (pairCmp fn a b ≤ 0)) (enumF 0 arr)

/-- `sort(arr, fn)` of `lib/sort.js`: the values of the sorted pairs,
written back in order (lines 27–30). -/
def sortJs (fn : α → α → Int) (arr : List α) : List α :=
  (sortPairs fn arr).map Prod.snd

/-! ### Permutation, sortedness and stability of `insSort` -/

theorem orderedInsertJs_perm (r : α → α → Bool) (x : α) (l : List α) :
    (orderedInsertJs r x l).Perm (x :: l) := by
  induction l with
  | nil => simp [orderedInsertJs]
  | cons y ys ih =>
    by_cases h : r x y = true
    · simp [orderedInsertJs, h]
    · simp only [orderedInsertJs, h, if_false, Bool.false_eq_true]
      exact ((ih.cons y).trans (List.Perm.swap x y ys))

theorem insSort_perm (r : α → α → Bool) (l : List α) :
    (insSort r l).Perm l := by
  induction l with
  | nil => simp [insSort]
  | cons x xs ih =>
    exact (orderedInsertJs_perm r x (insSort r xs)).trans (ih.cons x)

theorem mem_orderedInsertJs {r : α → α → Bool} {x z : α} {l : List α} :
    z ∈ orderedInsertJs r x l ↔ z = x ∨ z ∈ l := by
  have := (orderedInsertJs_perm r x l).mem_iff (a := z)
  simpa using this

theorem mem_insSort {r : α → α → Bool} {z : α} {l : List α} :
    z ∈ insSort r l ↔ z ∈ l :=
  (insSort_perm r l).mem_iff

theorem orderedInsertJs_sorted {r : α → α → Bool} {x : α} {l : List α}
    (htot : ∀ b ∈ l, r x b = true ∨ r b x = true)
    (htr : ∀ b ∈ l, ∀ c ∈ l, r x b = true → r b c = true → r x c = true)
    (hs : l.Pairwise (fun a b => r a b = true)) :
    (orderedInsertJs r x l).Pairwise (fun a b => r a b = true) := by
  induction l with
  | nil => simp [orderedInsertJs]
  | cons y ys ih =>
    rcases List.pairwise_cons.1 hs with ⟨hy, hys⟩
    by_cases h : r x y = true
    · simp only [orderedInsertJs, h, if_true]
      refine List.pairwise_cons.2 ⟨?_, hs⟩
      intro z hz
      rcases List.mem_cons.1 hz with hz | hz
      · exact hz ▸ h
      · exact htr y (by simp) z (by simp [hz]) h (hy z hz)
    · simp only [orderedInsertJs, h, if_false, Bool.false_eq_true]
      refine List.pairwise_cons.2 ⟨?_, ?_⟩
      · intro z hz
        rcases mem_orderedInsertJs.1 hz with hz | hz
        · subst hz
          rcases htot y (by simp) with h1 | h1
          · exact absurd h1 h
          · exact h1
        · exact hy z hz
      · refine ih ?_ ?_ hys
        · intro b hb; exact htot b (by simp [hb])
        · intro b hb c hc; exact htr b (by simp [hb]) c (by simp [hc])

theorem insSort_sorted {r : α → α → Bool} {l : List α}
    (htot : ∀ a ∈ l, ∀ b ∈ l, r a b = true ∨ r b a = true)
    (htr : ∀ a ∈ l, ∀ b ∈ l, ∀ c ∈ l, r a b = true → r b c = true → r a c = true) :
    (insSort r l).Pairwise (fun a b => r a b = true) := by
  induction l with
  | nil => simp [insSort]
  | cons x xs ih =>
    refine orderedInsertJs_sorted ?_ ?_ ?_
    · intro b hb
      exact htot x (by simp) b (by simp [mem_insSort.1 hb])
    · intro b hb c hc
      exact htr x (by simp) b (by simp [mem_insSort.1 hb]) c (by simp [mem_insSort.1 hc])
    · exact ih
        (fun a ha b hb => htot a (by simp [ha]) b (by simp [hb]))
        (fun a ha b hb c hc => htr a (by simp [ha]) b (by simp [hb]) c (by simp [hc]))

/-- The position of an element in a list (first occurrence). -/
def posOf [DecidableEq α] (a : α) : List α → Nat
  | [] => 0
  | x :: xs => if x = a then 0 else posOf a xs + 1

/-- In a `Pairwise R`-sorted duplicate-free list, if `R q p` fails then `p`
occurs strictly before `q`. -/
theorem sorted_posOf_lt [DecidableEq α] {R : α → α → Prop} {l : List α}
    {p q : α} (hs : l.Pairwise R) (hn : l.Nodup) (hp : p ∈ l) (hq : q ∈ l)
    (hpq : p ≠ q) (hnr : ¬ R q p) : posOf p l < posOf q l := by
  induction l with
  | nil => cases hp
  | cons a t ih =>
    rcases List.pairwise_cons.1 hs with ⟨ha, ht⟩
    rcases List.nodup_cons.1 hn with ⟨hna, hnt⟩
    by_cases hap : a = p
    · subst hap
      have hqt : q ∈ t := by
        rcases List.mem_cons.1 hq with hq | hq
        · exact absurd hq.symm hpq
        · exact hq
      have : a ≠ q := fun h => hpq h
      simp [posOf, this]
    · have hpt : p ∈ t := by
        rcases List.mem_cons.1 hp with hp | hp
        · exact absurd hp.symm hap
        · exact hp
      by_cases haq : a = q
      · subst haq
        exact absurd (ha p hpt) hnr
      · have hqt : q ∈ t := by
          rcases List.mem_cons.1 hq with hq | hq
          · exact absurd hq.symm haq
          · exact hq
        have := ih ht hnt hpt hqt
        simp only [posOf, hap, haq, if_false]
        omega

/-- The index pairing is duplicate-free (the indices are distinct). -/
theorem enumF_nodup (i : Nat) (l : List α) : (enumF i l).Nodup := by
  have key : ∀ (l : List α) (i : Nat) (p : Nat × α), p ∈ enumF i l → i ≤ p.1 := by
    intro l
    induction l with
    | nil => intro i p h; cases h
    | cons x xs ih =>
      intro i p h
      rcases List.mem_cons.1 h with h | h
      · simp [h]
      · have := ih (i + 1) p h
        omega
  induction l generalizing i with
  | nil => simp [enumF]
  | cons x xs ih =>
    refine List.nodup_cons.2 ⟨?_, ih (i + 1)⟩
    intro h
    have := key xs (i + 1) (i, x) h
    simp at this

theorem enumF_map_snd (i : Nat) (l : List α) :
    (enumF i l).map Prod.snd = l := by
  induction l generalizing i with
  | nil => rfl
  | cons x xs ih => simp [enumF, ih]


/-! ### The sort with a comparator that may throw

`Array.prototype.sort` does not catch exceptions raised by the comparator:
they propagate out of the `sort` call (and, inside a promise callback,
reject the promise).  `sortJsE` is `sortJs` with the comparator in
`Except Unit`; a comparator failure aborts the whole sort.  An insertion
sort performs no comparison on lists of length ≤ 1 and at least one
comparison otherwise, which is all the claims below rely on — any correct
implementation of `Array.prototype.sort` behaves identically when the
comparator *always* throws. -/

/-- The pair comparator of `sort` (lines 20–26) when the caller's comparator
may throw. -/
def pairCmpE (fn : α → α → Except Unit Int) (a b : Nat × α) : Except Unit Int := do
  let x ← fn a.2 b.2
  if x ≠ 0 then pure x
  else if a.1 < b.1 then pure (-1) else if a.1 > b.1 then pure 1 else pure 0

/-- `orderedInsertJs` with a throwing relation. -/
def orderedInsertE (r : α → α → Except Unit Bool) (x : α) :
    List α → Except Unit (List α)
  | [] => pure [x]
  | y :: ys => do
      if (← r x y) then pure (x :: y :: ys)
      else do pure (y :: (← orderedInsertE r x ys))

/-- `insSort` with a throwing relation. -/
def insSortE (r : α → α → Except Unit Bool) : List α → Except Unit (List α)
  | [] => pure []
  | x :: xs => do orderedInsertE r x (← insSortE r xs)

/-- `sort(arr, fn)` when the comparator `fn` may throw. -/
def sortJsE (fn : α → α → Except Unit Int) (arr : List α) :
    Except Unit (List α) := do
  let pairs ← insSortE
    (fun a b => do pure ((← pairCmpE fn a b) ≤ 0)) (enumF 0 arr)
  pure (pairs.map Prod.snd)

theorem exBind_ok (a : α) (f : α → Except Unit β) :
    (Except.ok a >>= f : Except Unit β) = f a := rfl

theorem exBind_error (e : Unit) (f : α → Except Unit β) :
    (Except.error e >>= f : Except Unit β) = Except.error e := rfl

theorem exMap_ok (a : α) (f : α → β) :
    (f <$> Except.ok a : Except Unit β) = Except.ok (f a) := rfl

theorem exMap_error (e : Unit) (f : α → β) :
    (f <$> Except.error e : Except Unit β) = Except.error e := rfl

theorem exPure_eq (a : α) : (pure a : Except Unit α) = Except.ok a := rfl

theorem orderedInsertE_ok_length (r : α → α → Except Unit Bool) (x : α)
    (l : List α) (res : List α) (h : orderedInsertE r x l = .ok res) :
    res.length = l.length + 1 := by
  induction l generalizing res with
  | nil =>
    simp only [orderedInsertE, exPure_eq, Except.ok.injEq] at h
    simp [← h]
  | cons y ys ih =>
    simp only [orderedInsertE] at h
    cases hr : r x y with
    | error e => rw [hr, exBind_error] at h; cases h
    | ok b =>
      rw [hr, exBind_ok] at h
      cases b with
      | true =>
        simp only [if_true, exPure_eq, Except.ok.injEq] at h
        simp [← h]
      | false =>
        simp only [Bool.false_eq_true, if_false] at h
        cases hrec : orderedInsertE r x ys with
        | error e =>
          rw [hrec] at h
          cases h
        | ok mid =>
          rw [hrec, exBind_ok] at h
          simp only [exPure_eq, Except.ok.injEq] at h
          simp [← h, ih mid hrec]

theorem insSortE_ok_length (r : α → α → Except Unit Bool) (l : List α)
    (res : List α) (h : insSortE r l = .ok res) : res.length = l.length := by
  induction l generalizing res with
  | nil =>
    simp only [insSortE, exPure_eq, Except.ok.injEq] at h
    simp [← h]
  | cons x xs ih =>
    simp only [insSortE] at h
    cases hrec : insSortE r xs with
    | error e => rw [hrec, exBind_error] at h; cases h
    | ok mid =>
      rw [hrec, exBind_ok] at h
      have h1 := orderedInsertE_ok_length r x mid res h
      have h2 := ih mid hrec
      simp [h1, h2]

/-- A sort whose comparator always throws fails on any list with at least
two elements. -/
theorem sortJsE_error_of_two (fn : α → α → Except Unit Int)
    (hfn : ∀ a b, fn a b = .error ()) (x y : α) (l : List α) :
    sortJsE fn (x :: y :: l) = .error () := by
  set r : Nat × α → Nat × α → Except Unit Bool :=
    fun a b => do pure ((← pairCmpE fn a b) ≤ 0) with hr
  have hrerr : ∀ a b, r a b = .error () := by
    intro a b
    have : pairCmpE fn a b = .error () := by
      simp only [pairCmpE, hfn, exBind_error]
    rw [hr]
    show (pairCmpE fn a b >>= fun v => pure (decide (v ≤ 0))) = .error ()
    rw [this, exBind_error]
  have hins : ∀ (z w : Nat × α) (ws : List (Nat × α)),
      orderedInsertE r z (w :: ws) = .error () := by
    intro z w ws
    show (r z w >>= fun b =>
      if b then pure (z :: w :: ws)
      else do pure (w :: (← orderedInsertE r z ws))) = .error ()
    rw [hrerr, exBind_error]
  have hmain : insSortE r (enumF 0 (x :: y :: l)) = .error () := by
    have hshape : enumF 0 (x :: y :: l) = (0, x) :: (1, y) :: enumF 2 l := rfl
    rw [hshape]
    show (insSortE r ((1, y) :: enumF 2 l) >>= orderedInsertE r (0, x))
        = .error ()
    cases hrec : insSortE r ((1, y) :: enumF 2 l) with
    | error e => rw [exBind_error]
    | ok mid =>
      rw [exBind_ok]
      have hlen := insSortE_ok_length r _ mid hrec
      cases mid with
      | nil => simp [enumF] at hlen
      | cons w ws => exact hins (0, x) w ws
  show (insSortE r (enumF 0 (x :: y :: l)) >>= fun pairs =>
    pure (pairs.map Prod.snd)) = .error ()
  rw [hmain, exBind_error]

/-! ## Catalog record types

Minimal record shapes of the JSON objects returned by the catalog client,
restricted to the fields the embedded code reads. -/

/-- A track record of a catalog search/fetch response
(`response.body.tracks.items[i]` in `lib/track.js`).  `artistNames` models
`response.artists` (the artists' `name` fields), `albumName` models
`response.album?.name`; `none` means the property is absent. -/
structure TrackR where
  name : List Char := []
  artistNames : Option (List (List Char)) := none
  albumName : Option (List Char) := none
  popularity : Option Int := none
  explicit : Bool := false
  uri : List Char := []
  id : List Char := []
  deriving DecidableEq, Repr

/-- An album record of a catalog response (`lib/artist.js`, `lib/album.js`).
`album_type` is the catalog's type tag (`album`, `single`, `appears_on`
or `compilation`). -/
structure AlbumR where
  name : List Char := []
  album_type : List Char := []
  popularity : Option Int := none
  id : List Char := []
  tracks : Option (List TrackR) := none
  deriving DecidableEq, Repr

/-- An artist record of a catalog search response
(`response.body.artists.items[i]`). -/
structure ArtistR where
  name : List Char := []
  id : List Char := []
  deriving DecidableEq, Repr

/-- JavaScript's `x || d` on an optional number: `undefined`, `null` and
`0` are falsy and give the default. -/
def jsOrNum (v : Option Int) (d : Int) : Int :=
  match v with
  | some n => if n = 0 then d else n
  | none => d

/-! ## `lib/sort.js` — comparator builders (lines 41–66) -/

/-- `sort.ascending(fn)` composed with `sort.comparator` (lines 41–42, 63–66):
`-1` if the first score is smaller, `1` if larger, `0` otherwise.  The order
on scores is passed explicitly (`<` of JavaScript on the score type). -/
def cmpAsc {β : Type} (lt : β → β → Bool) (fn : α → β) (a b : α) : Int :=
  if lt (fn a) (fn b) then -1 else if lt (fn b) (fn a) then 1 else 0

/-- `sort.descending(fn)` (lines 52–53). -/
def cmpDesc {β : Type} (lt : β → β → Bool) (fn : α → β) (a b : α) : Int :=
  if lt (fn a) (fn b) then 1 else if lt (fn b) (fn a) then -1 else 0

/-- `<` on integers, as a boolean. -/
def intLt (a b : Int) : Bool := decide (a < b)

/-- `sort.popularity` (line 91): descending by `x.popularity || -1`. -/
def sortPopularityT : TrackR → TrackR → Int :=
  cmpDesc intLt (fun x => jsOrNum x.popularity (-1))

/-- `sort.censorship` (line 179): descending by `x.explicit ? 1 : 0`. -/
def sortCensorship : TrackR → TrackR → Int :=
  cmpDesc intLt (fun x => if x.explicit then (1 : Int) else 0)

/-- The `rankings[album.album_type] || 0` score of `sort.type`
(lines 116–125). -/
def typeRank (a : AlbumR) : Int :=
  if a.album_type = toL "album" then 4
  else if a.album_type = toL "single" then 3
  else if a.album_type = toL "appears_on" then 2
  else if a.album_type = toL "compilation" then 1
  else 0

/-- `sort.type` (line 116): descending by the album-type ranking. -/
def sortTypeA : AlbumR → AlbumR → Int := cmpDesc intLt typeRank

/-- Popularity comparator as applied to album records
(`sort.popularity` reads `.popularity` off whatever object it is given). -/
def sortPopularityA : AlbumR → AlbumR → Int :=
  cmpDesc intLt (fun x => jsOrNum x.popularity (-1))

/-! ## `sort.combine` (lines 75–81)

```js
sort.combine = () => {
    const args = Array.prototype.slice.call(arguments);
    return args.reduce((fn1, fn2) => (a, b) => {
        const val = fn1(a, b);
        return val === 0 ? fn2(a, b) : val;
    });
};
```

`sort.combine` is an **arrow function**.  Arrow functions do not bind
`arguments`; in a CommonJS module the identifier resolves lexically to the
module wrapper's arguments, i.e. `(exports, require, module, __filename,
__dirname)`.  The comparators passed by the caller are therefore ignored
(the arrow also declares no parameters), and `args.reduce` folds the
fall-through combination over those five wrapper values instead.  The fold
succeeds (it only builds closures), but *calling* the resulting comparator
evaluates `fn1(a, b)` with `fn1` bottoming out at `exports` — a plain
object — and throws `TypeError: fn1 is not a function`.

`JsVal` models a JavaScript value that may or may not be callable;
`callJs` models invocation (`.error ()` is the thrown `TypeError`). -/

/-- A JavaScript value as a potential two-argument function: either a
non-callable value, or a function that may itself throw. -/
inductive JsVal (α : Type) where
  | obj : JsVal α
  | fn (f : α → α → Except Unit Int) : JsVal α

/-- Invoke a `JsVal` on two arguments; invoking a non-callable value
throws. -/
def callJs : JsVal α → α → α → Except Unit Int
  | .obj, _, _ => .error ()
  | .fn f, a, b => f a b

/-- One step of the `args.reduce` in `sort.combine` (lines 77–80): the
fall-through combination of two values, as a closure. -/
def combineStep (f g : JsVal α) : JsVal α :=
  .fn (fun a b => do
    let v ← callJs f a b
    if v = 0 then callJs g a b else pure v)

/-- The CommonJS module wrapper's arguments, which is what `arguments`
denotes inside the `sort.combine` arrow: `exports` (an object), `require`
(callable, but it throws when invoked on a non-string), `module` (an
object), `__filename` and `__dirname` (strings, not callable). -/
def cjsWrapperArgs (α : Type) : List (JsVal α) :=
  [.obj, .fn (fun _ _ => .error ()), .obj, .obj, .obj]

/-- `sort.combine(...fns)` (lines 75–81).  The comparators passed by the
caller are inaccessible to the arrow body and are discarded; the reduce
folds over the module wrapper's arguments. -/
def sortCombine (_fns : List (α → α → Int)) : JsVal α :=
  match cjsWrapperArgs α with
  | [] => .obj
  | x :: xs => xs.foldl combineStep x

theorem callJs_foldl_error (xs : List (JsVal α)) (acc : JsVal α)
    (hacc : ∀ a b, callJs acc a b = .error ()) :
    ∀ a b, callJs (xs.foldl combineStep acc) a b = .error () := by
  induction xs generalizing acc with
  | nil => exact hacc
  | cons g xs ih =>
    intro a b
    refine ih (combineStep acc g) ?_ a b
    intro a b
    show (callJs acc a b >>= fun v =>
      if v = 0 then callJs g a b else pure v) = .error ()
    rw [hacc, exBind_error]

/-- Every invocation of a comparator built by `sort.combine` throws,
whatever comparators were passed. -/
theorem sortCombine_error (fns : List (α → α → Int)) (a b : α) :
    callJs (sortCombine fns) a b = .error () := by
  show callJs
    ([JsVal.fn (fun _ _ => .error ()), .obj, .obj, .obj].foldl combineStep
      (JsVal.obj)) a b = .error ()
  exact callJs_foldl_error
    [JsVal.fn (fun _ _ => .error ()), JsVal.obj, JsVal.obj, JsVal.obj]
    JsVal.obj (fun _ _ => rfl) a b

/-- `sort.album` (line 135): `sort.combine(sort.type, sort.popularity)` —
a broken comparator, by `sortCombine_error`. -/
def sortAlbumJs : JsVal AlbumR := sortCombine [sortTypeA, sortPopularityA]

/-- `sort.similarTrack(track)` (lines 167–168): descending by the
`string-similarity` score of `` `${x.artists[0].name || ""} - ${x.name}` ``
against the reference string.  The scoring function of the external
`string-similarity` library is passed in as `sim`. -/
def sortSimilarTrack (sim : List Char → List Char → Rat)
    (track : List Char) : TrackR → TrackR → Int :=
  cmpDesc (fun a b : Rat => decide (a < b))
    (fun x => sim ((match x.artistNames with
      | some (n :: _) => n
      | _ => []) ++ toL " - " ++ x.name) track)

/-- `sort.track(track)` (lines 187–188): `sort.combine` of the similarity,
popularity and censorship comparators — again a broken comparator. -/
def sortTrackJs (sim : List Char → List Char → Rat)
    (track : List Char) : JsVal TrackR :=
  sortCombine [sortSimilarTrack sim track, sortPopularityT, sortCensorship]

/-! ## `lib/util.js` — string clean-up utilities -/

/-- The per-character replacement table of `util.replacePunctuation`
(lines 65–74): smart quotes, typographical dashes and the ellipsis are
mapped to their ASCII equivalents; everything else is unchanged. -/
def replacePunctChar (c : Char) : List Char :=
  if c.toNat = 0x2018 ∨ c.toNat = 0x2019 ∨ c.toNat = 0xb4 then toL "'"
  else if c.toNat = 0x201c ∨ c.toNat = 0x201d ∨ c.toNat = 0x2033 then toL "\""
  else if c.toNat = 0x2212 ∨ c.toNat = 0x2022 ∨ c.toNat = 0xb7 ∨
    c.toNat = 0x25aa then toL "-"
  else if c.toNat = 0x2013 ∨ c.toNat = 0x2015 then toL "-"
  else if c.toNat = 0x2014 then toL "-"
  else if c.toNat = 0x2026 then toL "..."
  else [c]

/-- `util.replacePunctuation` (lines 65–74). -/
def replacePunctuation (s : List Char) : List Char :=
  (s.map replacePunctChar).flatten

/-- The transliteration performed by the external `lodash.deburr`
(`util.toAscii`, line 151).  `deburr` maps Latin-1/Latin-Extended letters
to basic ASCII and is the identity on ASCII strings; the library is an
external collaborator, and the theorems below only ever evaluate it on
ASCII input, so it is modelled as the identity. -/
def deburr (s : List Char) : List Char := s

/-- `util.toAscii` (lines 149–154): replace punctuation, transliterate,
delete every character that is not a word character, whitespace or `-`,
and trim. -/
def toAscii (s : List Char) : List Char :=
  jsTrim ((deburr (replacePunctuation s)).filter
    (fun c => isWordChar c || jsIsSpace c || c.toNat = 45))

/-- `\p{L}` of `util.stripPunctuation` on the ASCII fragment. -/
def isLetterLike (c : Char) : Bool :=
  (65 ≤ c.toNat && c.toNat ≤ 90) || (97 ≤ c.toNat && c.toNat ≤ 122)

/-- `util.stripPunctuation(str, keep)` (lines 111–122): remove every
character that is not in `keep`, not whitespace, not a word character and
not a letter. -/
def stripPunctuation (keep : List Char) (s : List Char) : List Char :=
  s.filter (fun c => isWordChar c || jsIsSpace c || isLetterLike c ||
    keep.contains c)

/-- Collapse every maximal run of whitespace to a single space
(the `replace(/[\s]+/g, " ")` of `util.stripWhitespace`): within a run,
every whitespace character but the last is dropped and the last becomes a
space. -/
def collapseWs : List Char → List Char
  | [] => []
  | c :: t =>
    if jsIsSpace c then
      if (match t.head? with | some d => jsIsSpace d | none => false) then
        collapseWs t
      else Char.ofNat 32 :: collapseWs t
    else c :: collapseWs t

/-- `util.stripWhitespace` (lines 132–138): trim, then collapse
whitespace runs. -/
def stripWhitespace (s : List Char) : List Char := collapseWs (jsTrim s)

/-- `util.normalize` (lines 16–20). -/
def normalizeStr (s : List Char) : List Char :=
  stripWhitespace (replacePunctuation s)

/-- The `replace(/].*/gi, "]")`-style steps of `util.stripNoise`
(lines 88–89): keep everything up to and including the first `mark`, drop
the rest.  (`.` does not match newlines, but by this point `normalize` has
already collapsed all whitespace, newlines included, to single spaces.) -/
def cutAfter (mark : Char) : List Char → List Char
  | [] => []
  | c :: t => if c = mark then [c] else c :: cutAfter mark t

/-- The `replace(/^[0-9]+\. /gi, "")` step of `util.stripNoise`
(line 90): drop a leading line number. -/
def dropLineNum (s : List Char) : List Char :=
  let ds := s.takeWhile (fun c => 48 ≤ c.toNat && c.toNat ≤ 57)
  if ds ≠ [] then
    match s.drop ds.length with
    | c1 :: c2 :: t =>
      if c1.toNat = 46 ∧ c2.toNat = 32 then t else s
    | _ => s
  else s

/-- The `replace(/\[[^\]]*]/gi, "")`-style steps of `util.stripNoise`
(lines 91–92): delete every delimited segment (an `ob`, a run of
non-`cb` characters, then `cb`); an unclosed `ob` is kept. -/
def removeDelimF (ob cb : Char) : Nat → List Char → List Char
  | _, [] => []
  | 0, l => l
  | fuel + 1, c :: t =>
    if c = ob ∧ t.any (fun d => d = cb) then
      removeDelimF ob cb fuel ((t.dropWhile (fun d => ¬ d = cb)).drop 1)
    else c :: removeDelimF ob cb fuel t

/-- The delimited-segment scanner, with the input's length as fuel (each
step of `removeDelimF` consumes at least one character, so the fuel never
runs out; it only makes the recursion structural). -/
def removeDelim (ob cb : Char) (l : List Char) : List Char :=
  removeDelimF ob cb l.length l

/-- The run-collapsing steps of `util.stripNoise` (lines 93–94, the global
replacements of a run of dashes by one dash and of a run of dots by one
dot): collapse runs of `m` to a single `m`. -/
def collapseRun (m : Char) : List Char → List Char
  | [] => []
  | c :: t =>
    if c = m then
      if (match t.head? with | some d => d == m | none => false) then
        collapseRun m t
      else c :: collapseRun m t
    else c :: collapseRun m t

/-- `util.stripNoise` (lines 85–98). -/
def stripNoise (s : List Char) : List Char :=
  stripWhitespace (stripPunctuation (toL "-'.")
    (collapseRun (Char.ofNat 46) (collapseRun (Char.ofNat 45)
      (removeDelim (Char.ofNat 40) (Char.ofNat 41)
        (removeDelim (Char.ofNat 91) (Char.ofNat 93)
          (dropLineNum (cutAfter (Char.ofNat 41)
            (cutAfter (Char.ofNat 93) (normalizeStr s)))))))))

/-! ## `lib/track.js` — the `Track` entry -/

/-- The mutable state of a `Track` entry (constructor, lines 14–92).
The last.fm and audio-feature fields play no role in the claims below and
are omitted. -/
structure TrackS where
  album : List Char := []
  artist : List Char := []
  artists : Option (List (List Char)) := none
  entry : List Char := []
  id : List Char := []
  mainArtist : List Char := []
  name : List Char := []
  popularity : Option Int := none
  explicit : Bool := false
  title : List Char := []
  uri : List Char := []
  deriving DecidableEq, Repr

/-- `Track.prototype.clone(response)` (lines 98–117): copy the response's
own properties onto the track, then derive `album`, `artists`, `artist`,
`mainArtist` and `title`. -/
def cloneTrack (self : TrackS) (r : TrackR) : TrackS :=
  let s1 : TrackS := { self with
    name := r.name, popularity := r.popularity, explicit := r.explicit,
    uri := r.uri, id := r.id }
  let s2 := match r.albumName with
    | some n => { s1 with album := n }
    | none => s1
  let s3 := match r.artistNames with
    | some l =>
      let arts := l.map jsTrim
      { s2 with
          artists := some arts,
          artist := List.intercalate (toL ", ") arts,
          mainArtist := arts.headD [] }
    | none => s2
  if s3.mainArtist ≠ [] ∧ s3.name ≠ [] then
    { s3 with title := s3.mainArtist ++ toL " - " ++ s3.name }
  else
    { s3 with title := s3.name }

/-- `Track.prototype.equals(track)` (lines 169–171): both URIs truthy and
equal. -/
def trackEquals (a b : TrackS) : Bool :=
  a.uri ≠ [] && b.uri ≠ [] && a.uri == b.uri

/-- The `trim` helper of `Track.prototype.similarTo` (lines 440–446):
transliterate, strip punctuation, collapse whitespace, lower-case. -/
def trimTitle (s : List Char) : List Char :=
  lowerStr (stripWhitespace (stripPunctuation [] (toAscii s)))

/-- `Track.prototype.similarTo(track)` (lines 439–454). -/
def similarTo (a b : TrackS) : Bool :=
  trackEquals a b ||
  (a.title ≠ [] && b.title ≠ [] &&
    (a.title == b.title ||
      (trimTitle a.title ≠ [] && trimTitle a.title == trimTitle b.title)))

/-- `Track.prototype.hasArtist(artist)` (lines 330–339): the argument,
trimmed and lower-cased, occurs as a substring of one of the track's
artist names, each lower-cased and trimmed.  (`for (const i in
this.artists)` iterates zero times when `artists` is `null`.) -/
def hasArtist (self : TrackS) (artist : List Char) : Bool :=
  let a := lowerStr (jsTrim artist)
  (match self.artists with
    | none => []
    | some l => l).any (fun ta => hasSub a (jsTrim (lowerStr ta)))

/-- A `.catch` on a promise: pass an `ok` through, recover from an
`error`. -/
def jsCatch (x : Except Unit β) (f : Unit → Except Unit β) : Except Unit β :=
  match x with
  | .ok v => .ok v
  | .error e => f e

/-- The structured search query built by the `search` helper of
`Track.prototype.searchTracks` (lines 352–358). -/
def buildQuery (track artist album : List Char) : List Char :=
  if artist ≠ [] ∨ album ≠ [] then
    toL "track:\"" ++ jsTrim track ++ toL "\"" ++
    (if artist ≠ [] then toL " artist:\"" ++ jsTrim artist ++ toL "\"" else []) ++
    (if album ≠ [] then toL " album:\"" ++ jsTrim album ++ toL "\"" else [])
  else jsTrim track

/-- The catalog client, as oracles: `searchTracks` maps a query to the
response's item list (`[]` = no hits) and `getTrack` maps an id to a track
record (`none` = not found).  `sim` is the external `string-similarity`
scoring function. -/
structure TrackCtx where
  searchTracks : List Char → List TrackR
  getTrack : List Char → Option TrackR
  sim : List Char → List Char → Rat

/-- The `search` helper of `Track.prototype.searchTracks` (lines 352–374):
query the catalog; if there are hits and no artist was given, sort them
with `sort.track(query)` — whose comparator, built by the broken
`sort.combine`, throws on its first invocation, rejecting the promise —
then clone the first hit onto the track. -/
def searchStep (ctx : TrackCtx) (self : TrackS)
    (track artist album : List Char) : Except Unit TrackS :=
  let query := buildQuery track artist album
  match ctx.searchTracks query with
  | [] => .error ()
  | r0 :: rest =>
    if artist = [] then
      match sortJsE (callJs (sortTrackJs ctx.sim query)) (r0 :: rest) with
      | .error _ => .error ()
      | .ok sorted => .ok (cloneTrack self (sorted.headD r0))
    else .ok (cloneTrack self r0)

/-- The `searchTrackArtist` helper (lines 376–381): search, and on failure
swap artist and title and retry.  (Its declared first parameter `title` is
unused — the closure variable `track` is read instead; call sites pass the
same value.) -/
def searchTrackArtistM (ctx : TrackCtx) (self : TrackS)
    (track artist album : List Char) : Except Unit TrackS :=
  jsCatch (searchStep ctx self track artist album)
    (fun _ => searchStep ctx self artist track album)

/-- The `searchTrackArtistAlbum` helper (lines 383–391): on failure, if an
album was given, retry without it. -/
def searchTrackArtistAlbumM (ctx : TrackCtx) (self : TrackS)
    (track artist album : List Char) : Except Unit TrackS :=
  jsCatch (searchTrackArtistM ctx self track artist album)
    (fun _ =>
      if album ≠ [] then searchTrackArtistM ctx self track artist []
      else .error ())

/-- `/^[0-9a-z]+$/i` — the raw string looks like a bare catalog id. -/
def isIdLike (s : List Char) : Bool :=
  s ≠ [] && s.all (fun c =>
    (48 ≤ c.toNat && c.toNat ≤ 57) || (65 ≤ c.toNat && c.toNat ≤ 90) ||
    (97 ≤ c.toNat && c.toNat ≤ 122))

/-- `Track.prototype.getTrack(id)` (lines 299–314): skip the fetch when
popularity is already an integer; otherwise fetch by id and clone, or
reject. -/
def getTrackM (ctx : TrackCtx) (self : TrackS) (idArg : List Char) :
    Except Unit TrackS :=
  let i := if idArg ≠ [] then idArg else self.id
  match self.popularity with
  | some _ => .ok self
  | none =>
    match ctx.getTrack i with
    | some r => .ok (cloneTrack self r)
    | none => .error ()

/-- The `searchQuery` helper (lines 393–411): plain query; on failure
retry with the noise-stripped ASCII query if different; on failure, fetch
as an id if the query looks like one. -/
def searchQueryM (ctx : TrackCtx) (self : TrackS) (query : List Char) :
    Except Unit TrackS :=
  jsCatch
    (jsCatch (searchStep ctx self query [] [])
      (fun _ =>
        let str := toAscii (stripNoise query)
        if str ≠ [] ∧ str ≠ query then searchStep ctx self str [] []
        else .error ()))
    (fun _ =>
      if isIdLike query then getTrackM ctx self query
      else .error ())

/-- `Track.prototype.searchTracks(track)` (lines 348–431): the staged
fallback dispatch.  With an id the track is already resolved; with an
artist, the structured search (and its swap/no-album stages) runs first,
then the plain concatenated query; otherwise only the plain query. -/
def searchTracksM (ctx : TrackCtx) (self : TrackS) (trackArg : List Char) :
    Except Unit TrackS :=
  let track := if trackArg ≠ [] then trackArg else self.entry
  let artist := self.artist
  let album := self.album
  if self.id ≠ [] then .ok self
  else if artist ≠ [] then
    let track := self.name
    jsCatch (searchTrackArtistAlbumM ctx self track artist album)
      (fun _ => searchQueryM ctx self
        ((if artist ≠ [] then artist ++ toL " - " else []) ++ track ++
          (if album ≠ [] then toL " - " ++ album else [])))
  else searchQueryM ctx self track

/-- `Track.prototype.getURI` via `getProperty("uri")` (lines 281–289,
320–322): a present URI resolves immediately; a present id yields
`spotify:track:` plus the id; otherwise the track is searched. -/
def getURIM (ctx : TrackCtx) (self : TrackS) : Except Unit TrackS :=
  if self.uri ≠ [] then .ok self
  else if self.id ≠ [] then
    .ok { self with uri := toL "spotify:track:" ++ self.id }
  else searchTracksM ctx self []

/-- `Track.prototype.dispatch` (lines 159–161): resolve the URI and yield
the track itself. -/
def trackDispatchM (ctx : TrackCtx) (self : TrackS) : Except Unit TrackS :=
  getURIM ctx self

/-! ## `lib/album.js` and `lib/artist.js` — Album and Artist entries

The `Queue` class (`lib/queue.js`) is not among the available sources; its
operations are used below through small definitions that follow §4.2 of
the specification and carry a `Modelled from the spec` note. -/

/-- JavaScript truthiness of an optional numeric limit: `undefined` and `0`
are falsy. -/
def jsTruthyNat (o : Option Nat) : Bool :=
  match o with
  | some n => n ≠ 0
  | none => false

/-- Modelled from the spec: `Queue.prototype.slice` of the absent
`lib/queue.js` — "truncates to an item-limit window" (§4.2); `slice(0, n)`
keeps the first `n` entries. -/
def queueSlice (n : Nat) (l : List α) : List α := l.take n

/-- Modelled from the spec: `Queue.prototype.dispatch` of the absent
`lib/queue.js` — resolves every entry in order, collecting the results;
"entries that irrecoverably fail to resolve are dropped (logged, not
aborted)" (§4.2). -/
def queueDispatch (f : α → Except Unit β) (l : List α) : List β :=
  l.filterMap (fun a => (f a).toOption)

/-- Modelled from the spec: `Queue.prototype.forEachPromise` of the absent
`lib/queue.js` — "sequentially awaits `fn` for every entry, in order,
short-circuiting on the first unrecovered failure" (§4.2). -/
def queueForEachPromise (f : α → Except Unit β) (l : List α) :
    Except Unit (List β) :=
  l.mapM f

/-- Modelled from the spec: `Queue.prototype.interleave` of the absent
`lib/queue.js` — "produces one flat Queue by round-robin sampling across
the sub-Queues" (§4.2). -/
def interleaveQ (qs : List (List α)) : List α :=
  (List.range (qs.foldr (fun q m => max q.length m) 0)).flatMap
    (fun i => qs.filterMap (fun q => q[i]?))

/-- The mutable state of an `Album` entry (constructor, lines 109–164 of
`lib/album.js`). -/
structure AlbumS where
  entry : List Char := []
  fetchTracks : Bool := true
  id : List Char := []
  limit : Option Nat := none
  name : List Char := []
  album_type : List Char := []
  popularity : Option Int := none
  tracks : Option (List TrackR) := none
  uri : List Char := []
  deriving DecidableEq, Repr

/-- `Album.prototype.clone(response)` (lines 170–179): copy the response's
own properties onto the entity; `tracks` becomes the response's
`tracks.items` when present. -/
def cloneAlbum (self : AlbumS) (r : AlbumR) : AlbumS :=
  { self with
      name := r.name, album_type := r.album_type,
      popularity := r.popularity, id := r.id,
      tracks := match r.tracks with
        | some ts => some ts
        | none => self.tracks }

/-- Album-entity comparators: `sort.type` and `sort.popularity` read the
same properties off `Album` entities as off album records. -/
def typeRankS (a : AlbumS) : Int :=
  if a.album_type = toL "album" then 4
  else if a.album_type = toL "single" then 3
  else if a.album_type = toL "appears_on" then 2
  else if a.album_type = toL "compilation" then 1
  else 0

/-- `sort.album` applied to `Album` entities (`Artist.prototype.createQueue`
line 169) — broken for the same reason as `sortAlbumJs`. -/
def sortAlbumJsS : JsVal AlbumS :=
  sortCombine [cmpDesc intLt typeRankS,
    cmpDesc intLt (fun x => jsOrNum x.popularity (-1))]

/-- The catalog client for artist/album resolution: `searchArtists` maps a
query to the response's artist items, `artistAlbums` the full (paged)
album listing of an artist id (`util.paging`), `getAlbum` an album fetch
by id. -/
structure ArtistCtx where
  searchArtists : List Char → List ArtistR
  artistAlbums : List Char → List AlbumR
  getAlbum : List Char → Option AlbumR
  sim : List Char → List Char → Rat

/-- `Album.prototype.getAlbum` (lines 215–230): skipped when popularity is
already an integer; otherwise fetch by id and clone, or reject. -/
def albumGetAlbumM (ctx : ArtistCtx) (self : AlbumS) (idArg : List Char) :
    Except Unit AlbumS :=
  let i := if idArg ≠ [] then idArg else self.id
  match self.popularity with
  | some _ => .ok self
  | none =>
    match ctx.getAlbum i with
    | some r => .ok (cloneAlbum self r)
    | none => .error ()

/-- `Album.prototype.getPopularity` (lines 236–241). -/
def albumGetPopularityM (ctx : ArtistCtx) (self : AlbumS) :
    Except Unit AlbumS :=
  match self.popularity with
  | some _ => .ok self
  | none => albumGetAlbumM ctx self []

/-- `Album.prototype.getTracks` (lines 247–255), for entities that already
carry an id (the artist pipeline's case; the search fallback of
`lib/album.js` is not needed by any claim and entities without id or
tracks reject here). -/
def albumGetTracksM (ctx : ArtistCtx) (self : AlbumS) :
    Except Unit AlbumS :=
  match self.tracks with
  | some _ => .ok self
  | none =>
    if self.id ≠ [] then albumGetAlbumM ctx self []
    else .error ()

/-- `Album.prototype.createQueue` (lines 186–198): wrap each track record
as a `Track` entity tagged with the album name, truncated to the entity's
limit. -/
def albumCreateQueue (self : AlbumS) : List TrackS :=
  let tracks := (self.tracks.getD []).map (fun item =>
    { cloneTrack { entry := jsTrim self.entry } item with album := self.name })
  if jsTruthyNat self.limit then queueSlice (self.limit.getD 0) tracks
  else tracks

/-- `Album.prototype.dispatch` (lines 204–209) with `fetchTracks` set (the
only configuration the artist pipeline produces). -/
def albumDispatchM (ctx : ArtistCtx) (self : AlbumS) :
    Except Unit (List TrackS) := do
  let s ← albumGetTracksM ctx self
  pure (albumCreateQueue s)

/-- The mutable state of an `Artist` entry (constructor, lines 102–137 of
`lib/artist.js`). -/
structure ArtistS where
  albums : Option (List AlbumR) := none
  entry : List Char := []
  id : List Char := []
  limit : Option Nat := none
  name : List Char := []
  deriving DecidableEq, Repr

/-- `Artist.prototype.getArtistAlbums` (lines 197–210): fetch the full
paged album listing, then `sort(response.body.items, sort.album)` — whose
comparator, built by the broken `sort.combine`, throws on its first
invocation whenever there are at least two albums to compare. -/
def artistGetAlbumsM (ctx : ArtistCtx) (self : ArtistS) (idArg : List Char) :
    Except Unit ArtistS :=
  let i := if idArg ≠ [] then idArg else self.id
  match self.albums with
  | some _ => .ok self
  | none =>
    match sortJsE (callJs sortAlbumJs) (ctx.artistAlbums i) with
    | .error _ => .error ()
    | .ok sorted => .ok { self with albums := some sorted, id := i }

/-- The `search` helper of `Artist.prototype.searchArtists`
(lines 221–232): sort the hits by name similarity to the query
(`sort.similarArtist` — a working comparator) and clone the first onto the
entity. -/
def artistSearchStep (ctx : ArtistCtx) (self : ArtistS) (artist : List Char) :
    Except Unit ArtistS :=
  match ctx.searchArtists artist with
  | [] => .error ()
  | r0 :: rest =>
    let sorted := sortJs
      (cmpDesc (fun a b : Rat => decide (a < b)) (fun x : ArtistR => ctx.sim x.name artist))
      (r0 :: rest)
    let top := sorted.headD r0
    .ok { self with name := top.name, id := top.id }

/-- `Artist.prototype.searchArtists` (lines 217–262): search by the entry
string, then retry via the simplified query, then as a bare id. -/
def artistSearchArtistsM (ctx : ArtistCtx) (self : ArtistS) :
    Except Unit ArtistS :=
  let artist := self.entry
  if self.id ≠ [] then .ok self
  else
    jsCatch (artistSearchStep ctx self artist)
      (fun _ =>
        jsCatch
          (jsCatch (artistSearchStep ctx self artist)
            (fun _ =>
              let str := toAscii (stripNoise artist)
              if str ≠ [] ∧ str ≠ artist then artistSearchStep ctx self str
              else .error ()))
          (fun _ =>
            if isIdLike artist then artistGetAlbumsM ctx self artist
            else .error ()))

/-- The guest-track filter of `Artist.prototype.createQueue`
(lines 172–176): when the artist has a name, keep only tracks listing it
among their artists. -/
def artistTrackFilter (name : List Char) (tracks : List TrackS) :
    List TrackS :=
  tracks.filter (fun track => if name ≠ [] then hasArtist track name else true)

/-- `Artist.prototype.createQueue` (lines 156–177): wrap the album records
as `Album` entities, **slice to the limit**, fetch each remaining album's
popularity, sort with `sort.album` (broken), dispatch every album to its
tracks, flatten, and filter by artist name. -/
def artistCreateQueueM (ctx : ArtistCtx) (self : ArtistS) :
    Except Unit (List TrackS) := do
  let albums := (self.albums.getD []).map
    (fun item => cloneAlbum { entry := jsTrim self.entry } item)
  let albumQueue :=
    if jsTruthyNat self.limit then queueSlice (self.limit.getD 0) albums
    else albums
  let fetched ← queueForEachPromise (albumGetPopularityM ctx) albumQueue
  let sorted ← sortJsE (callJs sortAlbumJsS) fetched
  let queues := queueDispatch (albumDispatchM ctx) sorted
  pure (artistTrackFilter self.name queues.flatten)

/-- `Artist.prototype.dispatch` (lines 183–191). -/
def artistDispatchM (ctx : ArtistCtx) (self : ArtistS) :
    Except Unit (List TrackS) := do
  let s1 ← artistSearchArtistsM ctx self
  let s2 ← artistGetAlbumsM ctx s1 []
  artistCreateQueueM ctx s2

/-! ## `lib/top.js` — the TopTracks entry -/

/-- The mutable state of a `Top` entry (constructor, lines 14–44 of
`lib/top.js`). -/
structure TopS where
  entry : List Char := []
  id : List Char := []
  limit : Option Nat := none
  tracks : Option (List TrackR) := none
  deriving DecidableEq, Repr

/-- The catalog client for top-tracks resolution: `topTracks` maps an
artist id to the top-track records of `getArtistTopTracks`. -/
structure TopCtx where
  artist : ArtistCtx
  topTracks : List Char → List TrackR

/-- `Top.prototype.searchArtists` (lines 92–101): with an id the entry is
already resolved; otherwise an `Artist` entity resolves the id. -/
def topSearchArtistsM (ctx : TopCtx) (self : TopS) : Except Unit TopS :=
  if self.id ≠ [] then .ok self
  else do
    let a ← artistSearchArtistsM ctx.artist { entry := jsTrim self.entry }
    pure { self with id := a.id }

/-- `Top.prototype.getArtistTopTracks` (lines 79–86): fetch the top
tracks and sort them by `sort.popularity` (a working comparator). -/
def topGetArtistTopTracks (ctx : TopCtx) (self : TopS) : TopS :=
  { self with tracks := some (sortJs sortPopularityT (ctx.topTracks self.id)) }

/-- `Top.prototype.createQueue` (lines 51–63): wrap the track records as
`Track` entities; slice to the limit only when the limit is truthy. -/
def topCreateQueue (self : TopS) : List TrackS :=
  let tracks := (self.tracks.getD []).map
    (fun item => cloneTrack { entry := jsTrim self.entry } item)
  if jsTruthyNat self.limit then queueSlice (self.limit.getD 0) tracks
  else tracks

/-- `Top.prototype.dispatch` (lines 69–73). -/
def topDispatchM (ctx : TopCtx) (self : TopS) : Except Unit (List TrackS) := do
  let s1 ← topSearchArtistsM ctx self
  pure (topCreateQueue (topGetArtistTopTracks ctx s1))

/-! ## `lib/similar.js` — the SimilarArtists entry -/

/-- The mutable state of a `Similar` entry (constructor, lines 12–48 of
`lib/similar.js`).  The constructor assigns `entry`, `id`, `trackLimit`
(default 5) and `artistLimit` (default 20); it never assigns a `limit`
property, so reading `this.limit` yields `undefined` — kept here as a
field that `mkSimilar` always leaves `none`. -/
structure SimilarS where
  artists : Option (List ArtistR) := none
  artistLimit : Nat := 20
  entry : List Char := []
  id : List Char := []
  trackLimit : Nat := 5
  limit : Option Nat := none
  deriving DecidableEq, Repr

/-- The `Similar` constructor (lines 12–48): `trackLimit = trackLimit ||
5`, `artistLimit = artistLimit || 20`; `limit` is never assigned. -/
def mkSimilar (entry : List Char) (id : List Char)
    (trackLimit artistLimit : Option Nat) : SimilarS :=
  { entry := jsTrim entry, id := id,
    trackLimit := if jsTruthyNat trackLimit then trackLimit.getD 0 else 5,
    artistLimit := if jsTruthyNat artistLimit then artistLimit.getD 0 else 20,
    artists := none, limit := none }

/-- The catalog client for similar-artists resolution: `relatedArtists`
maps an artist id to `getArtistRelatedArtists` records. -/
structure SimilarCtx where
  top : TopCtx
  relatedArtists : List Char → List ArtistR

/-- `Similar.prototype.searchArtists` (lines 77–82): resolve the seed
artist's id through an `Artist` entity. -/
def similarSearchArtistsM (ctx : SimilarCtx) (self : SimilarS) :
    Except Unit SimilarS := do
  let a ← artistSearchArtistsM ctx.top.artist { entry := jsTrim self.entry }
  pure { self with id := a.id }

/-- `Similar.prototype.getArtistRelatedArtists` (lines 88–93). -/
def similarGetRelatedM (ctx : SimilarCtx) (self : SimilarS) : SimilarS :=
  { self with artists := some (ctx.relatedArtists self.id) }

/-- `Similar.prototype.createQueue` (lines 54–61): one `Top` entry per
related artist — constructed with `this.limit`, which is `undefined`
(the configured bound lives in `trackLimit`) — sliced to `artistLimit`,
dispatched, and interleaved. -/
def similarCreateQueueM (ctx : SimilarCtx) (self : SimilarS) :
    Except Unit (List TrackS) :=
  let tops := (self.artists.getD []).map (fun a =>
    ({ entry := jsTrim self.entry, id := a.id, limit := self.limit } : TopS))
  let bounded := queueSlice self.artistLimit tops
  let queues := queueDispatch (topDispatchM ctx.top) bounded
  pure (interleaveQ queues)

/-- `Similar.prototype.dispatch` (lines 67–71). -/
def similarDispatchM (ctx : SimilarCtx) (self : SimilarS) :
    Except Unit (List TrackS) := do
  let s1 ← similarSearchArtistsM ctx self
  similarCreateQueueM ctx (similarGetRelatedM ctx s1)

/-! ## `lib/collection.js` — ordering and rendering -/

/-- The value of a resolved track property read by `Collection.prototype.
order` — string-valued or numeric. -/
inductive PVal where
  | vstr (s : List Char) : PVal
  | vnum (n : Int) : PVal
  deriving DecidableEq, Repr

/-- JavaScript's `<` on two property values.  Both operands always have
the same type in the claims proved; a mixed comparison (which coerces the
string operand to a number and is `false` whenever that yields `NaN`) is
modelled as `false`. -/
def jsLtP : PVal → PVal → Bool
  | .vstr a, .vstr b => lexLt a b
  | .vnum a, .vnum b => decide (a < b)
  | _, _ => false

/-- Whether a property value is a string (`typeof x === "string"`). -/
def PVal.isStr : PVal → Bool
  | .vstr _ => true
  | .vnum _ => false

/-- The inline comparator of `Collection.prototype.order`
(lines 275–282 of `lib/collection.js`): ascending when the first
argument's property value is a string, descending otherwise.  `getProp`
models the dynamic property read `a[this.ordering]`. -/
def orderCmpJs (getProp : τ → PVal) (a b : τ) : Int :=
  let x := getProp a
  let y := getProp b
  match x with
  | .vstr _ => if jsLtP x y then -1 else if jsLtP y x then 1 else 0
  | .vnum _ => if jsLtP x y then 1 else if jsLtP y x then -1 else 0

/-- The `this.entries.sort(...)` of `Collection.prototype.order` for an
arbitrary resolved property (lines 273–284); `Queue.prototype.sort` is,
per §4.2 of the specification, the stable sort of `lib/sort.js`
(modelled from the spec: `lib/queue.js` is absent). -/
def collectionOrderProp (getProp : τ → PVal) (entries : List τ) : List τ :=
  sortJs (orderCmpJs getProp) entries

/-- A collection entry as seen by the rendering layer: a `Track` entity,
an `Album` entity, or anything else (`forEachTrack` keeps only `Track`s,
`instanceof Track`). -/
inductive CEntry where
  | track (t : TrackS) : CEntry
  | album (a : AlbumS) : CEntry
  | other : CEntry
  deriving DecidableEq, Repr

/-- `Collection.prototype.toURIs` (lines 384–390) over
`Collection.prototype.forEachTrack` (lines 204–210): append `uri + "\n"`
for every entry that is a `Track` with a truthy `uri`, then trim. -/
def toURIs (entries : List CEntry) : List Char :=
  jsTrim (entries.foldl (fun acc e =>
    match e with
    | .track t => if t.uri ≠ [] then acc ++ t.uri ++ [Char.ofNat 10] else acc
    | _ => acc) [])

/-- The URIs of the entries that are `Track`s with a truthy `uri`, in
queue order. -/
def uriList (entries : List CEntry) : List (List Char) :=
  entries.filterMap (fun e =>
    match e with
    | .track t => if t.uri ≠ [] then some t.uri else none
    | _ => none)

/-- Newline-joined rendering: the expected value of `toURIs`. -/
def joinNl : List (List Char) → List Char
  | [] => []
  | [u] => u
  | u :: us => u ++ Char.ofNat 10 :: joinNl us

/-! ## Claim C1 — stability and correctness of `sort` -/

theorem pairCmp_le_iff (fn : α → α → Int) (a b : Nat × α) :
    pairCmp fn a b ≤ 0 ↔
      fn a.2 b.2 < 0 ∨ (fn a.2 b.2 = 0 ∧ a.1 ≤ b.1) := by
  unfold pairCmp
  dsimp only
  split_ifs with h1 h2 h3 <;> omega

/-- C1: the `sort` of `lib/sort.js` is a stable sort: for every input
array and every (consistent) comparator, the output is a permutation of
the input that is sorted with respect to the comparator, and any two
elements the comparator ties keep their original relative order — the
element with the smaller original index (in `enumF 0 arr`) lands at a
strictly earlier position of the sorted pair list.  The consistency
hypotheses are exactly ECMA-262's notion of a consistent comparator
(symmetry of ties and of signs, and transitivity of the induced strict
order and tie relations); for an inconsistent comparator
`Array.prototype.sort`'s result is implementation-defined. -/
theorem c1_sort_stable {α : Type} [DecidableEq α]
    (fn : α → α → Int) (arr : List α)
    (h0 : ∀ x y, fn x y = 0 ↔ fn y x = 0)
    (hlt : ∀ x y, fn x y < 0 ↔ 0 < fn y x)
    (htl : ∀ x y z, fn x y < 0 → fn y z < 0 → fn x z < 0)
    (hte : ∀ x y z, fn x y = 0 → fn y z = 0 → fn x z = 0)
    (hm1 : ∀ x y z, fn x y = 0 → fn y z < 0 → fn x z < 0)
    (hm2 : ∀ x y z, fn x y < 0 → fn y z = 0 → fn x z < 0) :
    (sortJs fn arr).Perm arr ∧
    (sortJs fn arr).Pairwise (fun x y => fn x y ≤ 0) ∧
    (∀ p q : Nat × α, p ∈ enumF 0 arr → q ∈ enumF 0 arr →
      p.1 < q.1 → fn p.2 q.2 = 0 →
      posOf p (sortPairs fn arr) < posOf q (sortPairs fn arr)) := by
  set r : Nat × α → Nat × α → Bool :=
    fun a b => decide (pairCmp fn a b ≤ 0) with hrdef
  have hr_iff : ∀ a b, r a b = true ↔
      (fn a.2 b.2 < 0 ∨ (fn a.2 b.2 = 0 ∧ a.1 ≤ b.1)) := by
    intro a b
    rw [hrdef]
    simp only [decide_eq_true_eq]
    exact pairCmp_le_iff fn a b
  have rtot : ∀ a b : Nat × α, r a b = true ∨ r b a = true := by
    intro a b
    rcases lt_trichotomy (fn a.2 b.2) 0 with h | h | h
    · exact Or.inl ((hr_iff a b).2 (Or.inl h))
    · have h' : fn b.2 a.2 = 0 := (h0 a.2 b.2).1 h
      by_cases hi : a.1 ≤ b.1
      · exact Or.inl ((hr_iff a b).2 (Or.inr ⟨h, hi⟩))
      · exact Or.inr ((hr_iff b a).2 (Or.inr ⟨h', by omega⟩))
    · have h' : fn b.2 a.2 < 0 := (hlt b.2 a.2).2 h
      exact Or.inr ((hr_iff b a).2 (Or.inl h'))
  have rtrans : ∀ a b c : Nat × α,
      r a b = true → r b c = true → r a c = true := by
    intro a b c hab hbc
    rcases (hr_iff a b).1 hab with h1 | ⟨h1, hi1⟩ <;>
      rcases (hr_iff b c).1 hbc with h2 | ⟨h2, hi2⟩
    · exact (hr_iff a c).2 (Or.inl (htl _ _ _ h1 h2))
    · exact (hr_iff a c).2 (Or.inl (hm2 _ _ _ h1 h2))
    · exact (hr_iff a c).2 (Or.inl (hm1 _ _ _ h1 h2))
    · exact (hr_iff a c).2 (Or.inr ⟨hte _ _ _ h1 h2, le_trans hi1 hi2⟩)
  have hperm : (sortPairs fn arr).Perm (enumF 0 arr) := insSort_perm r _
  have hsorted : (sortPairs fn arr).Pairwise (fun a b => r a b = true) :=
    insSort_sorted (fun a _ b _ => rtot a b)
      (fun a _ b _ c _ => rtrans a b c)
  refine ⟨?_, ?_, ?_⟩
  · have := hperm.map Prod.snd
    rwa [enumF_map_snd] at this
  · refine List.Pairwise.map Prod.snd ?_ hsorted
    intro a b hab
    rcases (hr_iff a b).1 hab with h | ⟨h, -⟩
    · exact le_of_lt h
    · exact le_of_eq h
  · intro p q hp hq hlt12 htie
    have hpq : p ≠ q := by
      intro h
      rw [h] at hlt12
      exact absurd hlt12 (lt_irrefl _)
    have hnr : ¬ (r q p = true) := by
      intro h
      rcases (hr_iff q p).1 h with h1 | ⟨-, h2⟩
      · have : fn q.2 p.2 = 0 := (h0 p.2 q.2).1 htie
        omega
      · omega
    exact sorted_posOf_lt hsorted
      (hperm.nodup_iff.2 (enumF_nodup 0 arr))
      (mem_insSort.2 hp) (mem_insSort.2 hq) hpq hnr

/-- A concrete comparator for the C1 witness: compare elements of `Fin 4`
by `val / 2`, so `0, 1` tie and `2, 3` tie. -/
def fnPairHalf (x y : Fin 4) : Int := (x.val : Int) / 2 - (y.val : Int) / 2

/-- Witness for C1 at a concrete array and comparator with ties. -/
theorem c1_sort_stable_witness :
    (sortJs fnPairHalf [3, 1, 0, 2]).Perm [3, 1, 0, 2] ∧
    (sortJs fnPairHalf [3, 1, 0, 2]).Pairwise
      (fun x y => fnPairHalf x y ≤ 0) ∧
    (∀ p q : Nat × Fin 4,
      p ∈ enumF 0 [3, 1, 0, 2] → q ∈ enumF 0 [3, 1, 0, 2] →
      p.1 < q.1 → fnPairHalf p.2 q.2 = 0 →
      posOf p (sortPairs fnPairHalf [3, 1, 0, 2]) <
        posOf q (sortPairs fnPairHalf [3, 1, 0, 2])) :=
  c1_sort_stable fnPairHalf [3, 1, 0, 2]
    (by decide) (by decide) (by decide) (by decide) (by decide) (by decide)

/-- Decidable equality for promise outcomes. -/
instance exceptDecEq {e a : Type} [DecidableEq e] [DecidableEq a] :
    DecidableEq (Except e a) := fun x y =>
  match x, y with
  | .error v, .error w =>
    if h : v = w then isTrue (by rw [h]) else isFalse (by simp [h])
  | .ok v, .ok w =>
    if h : v = w then isTrue (by rw [h]) else isFalse (by simp [h])
  | .error _, .ok _ => isFalse (fun hh => Except.noConfusion hh)
  | .ok _, .error _ => isFalse (fun hh => Except.noConfusion hh)

/-! ## Claim C2 — `sort.combine` -/

/-- C2: contrary to the claim, `sort.combine` does **not** return a
fall-through combination of the comparators it is given: being an arrow
function, it reads the CommonJS wrapper's `arguments` instead of its own,
so the comparators passed are discarded (the result does not depend on
them at all) and every invocation of the returned comparator throws a
`TypeError`.  The claimed fall-through behaviour is unobtainable. -/
theorem c2_combine_throws {α : Type} (fns : List (α → α → Int)) (a b : α) :
    callJs (sortCombine fns) a b = Except.error () ∧
    sortCombine fns = sortCombine ([] : List (α → α → Int)) :=
  ⟨sortCombine_error fns a b, rfl⟩

/-! ## Claim C3 — ranking of multiple track candidates -/

/-- A first track candidate for the C3/C4 fixtures. -/
def trackRa : TrackR :=
  { name := toL "Postscript",
    artistNames := some [toL "Bowery Electric"],
    uri := toL "spotify:track:aaa", id := toL "aaa",
    popularity := some 50 }

/-- A second track candidate. -/
def trackRb : TrackR :=
  { name := toL "Lushlife",
    artistNames := some [toL "Bowery Electric"],
    uri := toL "spotify:track:bbb", id := toL "bbb",
    popularity := some 60 }

/-- A catalog for C3 that answers **every** track query with the same two
candidates. -/
def c3ctx : TrackCtx :=
  { searchTracks := fun _ => [trackRa, trackRb],
    getTrack := fun _ => none,
    sim := fun _ _ => 0 }

/-- A track entry with no artist field (a plain one-line entry). -/
def c3self : TrackS := { entry := toL "bowery electric postscript" }

/-- C3: contrary to the claim, when a search without an artist field
returns two or more candidates, they are **not** ranked and no candidate
is selected: `sort.track(query)` is built by the broken `sort.combine`,
so the comparator throws on its first invocation and the search rejects.
First conjunct: for every catalog answering some query with at least two
items, the `search` helper rejects.  Second conjunct: a full
`searchTracks` resolution against a catalog that returns the two
candidates for every query (structured, simplified, or otherwise) still
reports not-found. -/
theorem c3_two_candidates_reject :
    (∀ (sim : List Char → List Char → Rat) (gt : List Char → Option TrackR)
      (r1 r2 : TrackR) (rest : List TrackR) (self : TrackS)
      (track : List Char),
      searchStep
        { searchTracks := fun _ => r1 :: r2 :: rest,
          getTrack := gt, sim := sim }
        self track [] [] = .error ()) ∧
    searchTracksM c3ctx c3self [] = .error () := by
  constructor
  · intro sim gt r1 r2 rest self track
    have herr := sortJsE_error_of_two
      (callJs (sortTrackJs sim (buildQuery track [] [])))
      (fun a b => sortCombine_error _ a b) r1 r2 rest
    dsimp only [searchStep]
    rw [herr]
    simp
  · decide

/-! ## Claim C4 — the artist/title swap fallback -/

/-- C4: for every unresolved track with both artist and title set, if the
structured query in the given field order has no hits but the query with
artist and title swapped does, then the dispatch resolves the track via
the swap stage — it does not report not-found.  The resolved state is the
first hit of the swapped query cloned onto the track. -/
theorem c4_swap_fallback (ctx : TrackCtx) (self : TrackS) (r : TrackR)
    (rs : List TrackR)
    (huri : self.uri = []) (hid : self.id = [])
    (hart : self.artist ≠ []) (hname : self.name ≠ [])
    (h1 : ctx.searchTracks (buildQuery self.name self.artist self.album) = [])
    (h2 : ctx.searchTracks (buildQuery self.artist self.name self.album) = r :: rs) :
    trackDispatchM ctx self = .ok (cloneTrack self r) := by
  unfold trackDispatchM getURIM
  rw [if_neg (by simp [huri]), if_neg (by simp [hid])]
  unfold searchTracksM
  rw [if_neg (by simp [hid]), if_pos hart]
  unfold searchTrackArtistAlbumM searchTrackArtistM searchStep
  dsimp only
  rw [h1, h2]
  simp [jsCatch, hname]

/-- A track entry with both artist and title set, for the C4 witness. -/
def c4self : TrackS :=
  { entry := toL "Postscript - Bowery Electric",
    artist := toL "Bowery Electric", name := toL "Postscript" }

/-- A catalog that misses the structured query in the given order but hits
the swapped one. -/
def c4ctx : TrackCtx :=
  { searchTracks := fun q =>
      if q = buildQuery (toL "Bowery Electric") (toL "Postscript") []
      then [trackRa] else [],
    getTrack := fun _ => none,
    sim := fun _ _ => 0 }

/-- Witness for C4: the concrete dispatch resolves via the swap stage. -/
theorem c4_swap_fallback_witness :
    trackDispatchM c4ctx c4self = .ok (cloneTrack c4self trackRa) :=
  c4_swap_fallback c4ctx c4self trackRa []
    (by decide) (by decide) (by decide) (by decide) (by decide) (by decide)

/-! ## Claim C5 — duplicate detection (`similarTo`) -/

/-- The C5 claim as frozen: duplicates exactly when the URIs match, or —
only when **both URIs are absent** — when the normalized titles match;
two fully unresolved entries never match. -/
def claimDuplicates (a b : TrackS) : Bool :=
  (a.uri ≠ [] && b.uri ≠ [] && a.uri == b.uri) ||
  (a.uri == [] && b.uri == [] && a.title ≠ [] && b.title ≠ [] &&
    trimTitle a.title == trimTitle b.title)

/-- A resolved track. -/
def c5a : TrackS :=
  { uri := toL "spotify:track:aaa", title := toL "Bowery Electric - Postscript" }

/-- A track resolved to a **different** URI but carrying the same title. -/
def c5b : TrackS :=
  { uri := toL "spotify:track:bbb", title := toL "Bowery Electric - Postscript" }

/-- Counterexample to C5 as stated: two tracks whose URIs are both present
and differ, with identical titles, are counted as duplicates by
`similarTo` — the title fallback is not restricted to the URI-absent
case. -/
theorem c5_counterexample :
    similarTo c5a c5b = true ∧ claimDuplicates c5a c5b = false := by
  decide

/-- C5 (amended): two entries count as duplicates exactly when their URIs
are both present and equal, **or** when both titles are present and either
the titles are identical or their normalizations (transliterated,
punctuation-stripped, whitespace-collapsed, lower-cased) are nonempty and
equal — the title fallback applies regardless of URI presence.  Entries
that are fully unresolved (no URI and no title) are never duplicates, in
either argument position. -/
theorem c5_amended (a b : TrackS) :
    (similarTo a b = true ↔
      ((a.uri ≠ [] ∧ b.uri ≠ [] ∧ a.uri = b.uri) ∨
       (a.title ≠ [] ∧ b.title ≠ [] ∧
         (a.title = b.title ∨
          (trimTitle a.title ≠ [] ∧ trimTitle a.title = trimTitle b.title))))) ∧
    similarTo { a with uri := [], title := [] } b = false ∧
    similarTo b { a with uri := [], title := [] } = false := by
  refine ⟨?_, ?_, ?_⟩
  · simp [similarTo, trackEquals, and_assoc]
  · simp [similarTo, trackEquals]
  · simp [similarTo, trackEquals]

/-! ## Claim C6 — SimilarArtists resolution -/

/-- A top-track record for the C6 fixture. -/
def c6tr (n : String) (p : Int) : TrackR :=
  { name := toL n, popularity := some p,
    uri := toL ("spotify:track:" ++ n) }

/-- A catalog for C6: the seed artist resolves to one id, its two related
artists each have **six** top tracks (more than the default per-artist
limit of five). -/
def c6ctx : SimilarCtx :=
  { top :=
    { artist :=
      { searchArtists := fun _ => [{ name := toL "Seed", id := toL "seedid" }],
        artistAlbums := fun _ => [],
        getAlbum := fun _ => none,
        sim := fun _ _ => 0 },
      topTracks := fun aid =>
        if aid = toL "r1" then
          [c6tr "a0" 60, c6tr "a1" 50, c6tr "a2" 40,
           c6tr "a3" 30, c6tr "a4" 20, c6tr "a5" 10]
        else
          [c6tr "b0" 60, c6tr "b1" 50, c6tr "b2" 40,
           c6tr "b3" 30, c6tr "b4" 20, c6tr "b5" 10] },
    relatedArtists := fun _ =>
      [{ name := toL "R1", id := toL "r1" }, { name := toL "R2", id := toL "r2" }] }

/-- A SimilarArtists entry with the default limits. -/
def c6self : SimilarS := mkSimilar (toL "Seed") [] none none

/-- C6: the related-artist results **are** interleaved round-robin and the
artist-count bound is applied, but — contrary to the claim — the
per-artist track lists are **not** truncated to the track-count limit:
`createQueue` passes `this.limit` (which `Similar` never assigns, so it is
`undefined`) to each `Top` entry instead of `this.trackLimit`.  With the
default limit of 5 tracks per artist and two related artists of six top
tracks each, resolution yields all twelve tracks, alternating between the
two artists, rather than ten. -/
theorem c6_similar_limit_unused :
    c6self.trackLimit = 5 ∧
    (match similarDispatchM c6ctx c6self with
      | .ok ts => ts.map (fun t => t.name)
      | .error _ => []) =
      [toL "a0", toL "b0", toL "a1", toL "b1", toL "a2", toL "b2",
       toL "a3", toL "b3", toL "a4", toL "b4", toL "a5", toL "b5"] := by
  decide

/-! ## Claim C7 — album ranking and the limit -/

/-- An album record whose type ranks low (a single, low popularity). -/
def c7albSingle : AlbumR :=
  { name := toL "S", album_type := toL "single", id := toL "al1" }

/-- An album record that outranks it on both type and popularity. -/
def c7albBest : AlbumR :=
  { name := toL "B", album_type := toL "album",
    popularity := some 90, id := toL "al2" }

/-- The catalog for C7's limit fixture: fetching either album by id yields
its popularity and track listing. -/
def c7ctx : ArtistCtx :=
  { searchArtists := fun _ => [{ name := toL "A", id := toL "artid" }],
    artistAlbums := fun _ => [c7albSingle, c7albBest],
    getAlbum := fun i =>
      if i = toL "al1" then
        some { c7albSingle with
                 popularity := some 10,
                 tracks := some [{ name := toL "s-track",
                                   uri := toL "spotify:track:s1" }] }
      else if i = toL "al2" then
        some { c7albBest with
                 tracks := some [{ name := toL "b-track",
                                   uri := toL "spotify:track:b1" }] }
      else none,
    sim := fun _ _ => 0 }

/-- An artist whose album list is already cached (so `createQueue` is
reached directly), with a limit of one. -/
def c7self : ArtistS :=
  { albums := some [c7albSingle, c7albBest], entry := toL "A",
    id := toL "artid", limit := some 1 }

/-- C7: contrary to the claim, the limit is **not** applied after the
full album set is ranked.  First conjunct: `createQueue` slices the album
queue to the limit *before* fetching popularities and before the
popularity-aware sort, so with `limit = 1` the resolved tracks are those
of the first-listed album (`single`, popularity 10) even though the other
album (`album`, popularity 90) outranks it under the album-type/popularity
comparator — under the claimed ordering the better album's tracks would
survive.  Second conjunct: whenever the full album listing has two or more
entries, `getArtistAlbums` rejects outright, because `sort(items,
sort.album)` throws — `sort.album` is built by the broken `sort.combine`;
so the claimed ranked-then-truncated pipeline cannot even run.  Third
conjunct: the full dispatch of a two-album artist rejects. -/
theorem c7_limit_before_ranking :
    (match artistCreateQueueM c7ctx c7self with
      | .ok ts => ts.map (fun t => t.name)
      | .error _ => []) = [toL "s-track"] ∧
    (∀ (a1 a2 : AlbumR) (rest : List AlbumR) (idArg e i nm : List Char)
      (lim : Option Nat) (sA : List Char → List ArtistR)
      (gA : List Char → Option AlbumR) (sim : List Char → List Char → Rat),
      artistGetAlbumsM
        { searchArtists := sA, artistAlbums := fun _ => a1 :: a2 :: rest,
          getAlbum := gA, sim := sim }
        { albums := none, entry := e, id := i, limit := lim, name := nm }
        idArg = .error ()) ∧
    artistDispatchM c7ctx { entry := toL "A" } = .error () := by
  refine ⟨by decide, ?_, by decide⟩
  intro a1 a2 rest idArg e i nm lim sA gA sim
  have herr := sortJsE_error_of_two (callJs sortAlbumJs)
    (fun a b => sortCombine_error _ a b) a1 a2 rest
  dsimp only [artistGetAlbumsM]
  rw [herr]

/-! ## Claim C8 — `Collection.order` over an arbitrary property -/

theorem lexLt_irrefl (a : List Char) : lexLt a a = false := by
  induction a with
  | nil => rfl
  | cons x xs ih => simp [lexLt, ih]

theorem lexLt_asymm {a b : List Char} (h : lexLt a b = true) :
    lexLt b a = false := by
  induction a generalizing b with
  | nil =>
    cases b with
    | nil => simp [lexLt] at h
    | cons y ys => simp [lexLt]
  | cons x xs ih =>
    cases b with
    | nil => simp [lexLt] at h
    | cons y ys =>
      simp only [lexLt] at h ⊢
      by_cases h1 : x < y
      · have h2 : ¬ y < x := lt_asymm h1
        simp [h1, h2]
      · by_cases h2 : y < x
        · simp [h1, h2] at h
        · simp only [h1, h2, if_false] at h ⊢
          exact ih h

theorem lexLt_connex {a b : List Char} (h1 : lexLt a b = false)
    (h2 : lexLt b a = false) : a = b := by
  induction a generalizing b with
  | nil =>
    cases b with
    | nil => rfl
    | cons y ys => simp [lexLt] at h1
  | cons x xs ih =>
    cases b with
    | nil => simp [lexLt] at h2
    | cons y ys =>
      simp only [lexLt] at h1 h2
      by_cases hxy : x < y
      · simp [hxy] at h1
      · by_cases hyx : y < x
        · simp [hxy, hyx] at h2
        · have hx : x = y := le_antisymm (not_lt.1 hyx) (not_lt.1 hxy)
          simp only [hxy, hyx, if_false] at h1 h2
          rw [hx, ih h1 h2]

theorem lexLt_trans {a b c : List Char} (h1 : lexLt a b = true)
    (h2 : lexLt b c = true) : lexLt a c = true := by
  induction a generalizing b c with
  | nil =>
    cases c with
    | nil =>
      cases b with
      | nil => simp [lexLt] at h1
      | cons y ys => simp [lexLt] at h2
    | cons z zs => simp [lexLt]
  | cons x xs ih =>
    cases b with
    | nil => simp [lexLt] at h1
    | cons y ys =>
      cases c with
      | nil => simp [lexLt] at h2
      | cons z zs =>
        simp only [lexLt] at h1 h2 ⊢
        by_cases hxy : x < y
        · by_cases hyz : y < z
          · simp [lt_trans hxy hyz]
          · by_cases hzy : z < y
            · simp [hyz, hzy] at h2
            · have : y = z := le_antisymm (not_lt.1 hzy) (not_lt.1 hyz)
              rw [← this]
              simp [hxy]
        · by_cases hyx : y < x
          · simp [hxy, hyx] at h1
          · have hxy' : x = y := le_antisymm (not_lt.1 hyx) (not_lt.1 hxy)
            subst hxy'
            by_cases hyz : x < z
            · simp [hyz]
            · by_cases hzy : z < x
              · simp [hyz, hzy] at h2
              · simp only [hyz, hzy, if_false] at h2 ⊢
                exact ih (by simpa [hxy, hyx] using h1) h2

theorem mem_enumF_snd {p : Nat × α} {i : Nat} {l : List α}
    (h : p ∈ enumF i l) : p.2 ∈ l := by
  induction l generalizing i with
  | nil => cases h
  | cons x xs ih =>
    rcases List.mem_cons.1 h with h | h
    · simp [h]
    · exact List.mem_cons_of_mem x (ih h)

theorem orderCmp_str {τ : Type} (getProp : τ → PVal) (a b : τ)
    (sa sb : List Char) (ha : getProp a = .vstr sa)
    (hb : getProp b = .vstr sb) :
    orderCmpJs getProp a b =
      (if lexLt sa sb then -1 else if lexLt sb sa then 1 else 0) := by
  unfold orderCmpJs
  rw [ha, hb]
  rfl

theorem orderCmp_num {τ : Type} (getProp : τ → PVal) (a b : τ)
    (na nb : Int) (ha : getProp a = .vnum na) (hb : getProp b = .vnum nb) :
    orderCmpJs getProp a b =
      (if na < nb then 1 else if nb < na then -1 else 0) := by
  unfold orderCmpJs
  rw [ha, hb]
  simp [jsLtP]

/-- C8: the ordering asymmetry of `Collection.order` for an arbitrary
resolved property.  The sorted queue is always a permutation of the
input; when every entry's property value is string-valued the queue is
sorted **ascending** (no later entry's value is lexicographically below an
earlier one's), and when every value is numeric it is sorted
**descending** (no earlier entry's value is below a later one's). -/
theorem c8_order_asymmetry {τ : Type} (getProp : τ → PVal)
    (entries : List τ) :
    (collectionOrderProp getProp entries).Perm entries ∧
    ((∀ t ∈ entries, (getProp t).isStr = true) →
      (collectionOrderProp getProp entries).Pairwise
        (fun a b => jsLtP (getProp b) (getProp a) = false)) ∧
    ((∀ t ∈ entries, (getProp t).isStr = false) →
      (collectionOrderProp getProp entries).Pairwise
        (fun a b => jsLtP (getProp a) (getProp b) = false)) := by
  set fn : τ → τ → Int := orderCmpJs getProp with hfn
  set r : Nat × τ → Nat × τ → Bool :=
    fun p q => decide (pairCmp fn p q ≤ 0) with hr
  have hperm0 : (sortPairs fn entries).Perm (enumF 0 entries) :=
    insSort_perm _ _
  have hmemp : ∀ p : Nat × τ, p ∈ sortPairs fn entries →
      p ∈ enumF 0 entries := fun p hp => hperm0.mem_iff.1 hp
  refine ⟨?_, ?_, ?_⟩
  · have := hperm0.map Prod.snd
    rwa [enumF_map_snd] at this
  · -- ascending for string-valued properties
    intro hstr
    have hval : ∀ p : Nat × τ, p ∈ enumF 0 entries →
        ∃ s, getProp p.2 = .vstr s := by
      intro p hp
      cases h : getProp p.2 with
      | vstr s => exact ⟨s, rfl⟩
      | vnum n =>
        have := hstr p.2 (mem_enumF_snd hp)
        rw [h] at this
        simp [PVal.isStr] at this
    have hchar : ∀ p q : Nat × τ, ∀ sa sb,
        getProp p.2 = .vstr sa → getProp q.2 = .vstr sb →
        (r p q = true ↔
          (lexLt sa sb = true ∨
           (lexLt sa sb = false ∧ lexLt sb sa = false ∧ p.1 ≤ q.1))) := by
      intro p q sa sb ha hb
      rw [hr]
      rw [decide_eq_true_eq, pairCmp_le_iff, hfn,
        orderCmp_str getProp _ _ sa sb ha hb]
      by_cases h1 : lexLt sa sb <;> by_cases h2 : lexLt sb sa <;>
        simp [h1, h2]
    have hsorted : (sortPairs fn entries).Pairwise
        (fun p q => r p q = true) := by
      refine insSort_sorted ?_ ?_
      · intro p hp q hq
        obtain ⟨sa, ha⟩ := hval p hp
        obtain ⟨sb, hb⟩ := hval q hq
        by_cases h1 : lexLt sa sb = true
        · exact Or.inl ((hchar p q sa sb ha hb).2 (Or.inl h1))
        · by_cases h2 : lexLt sb sa = true
          · exact Or.inr ((hchar q p sb sa hb ha).2 (Or.inl h2))
          · rcases le_total p.1 q.1 with h3 | h3
            · exact Or.inl ((hchar p q sa sb ha hb).2
                (Or.inr ⟨by simpa using h1, by simpa using h2, h3⟩))
            · exact Or.inr ((hchar q p sb sa hb ha).2
                (Or.inr ⟨by simpa using h2, by simpa using h1, h3⟩))
      · intro p hp q hq w hw hpq hqw
        obtain ⟨sa, ha⟩ := hval p hp
        obtain ⟨sb, hb⟩ := hval q hq
        obtain ⟨sc, hc⟩ := hval w hw
        rcases (hchar p q sa sb ha hb).1 hpq with h1 | ⟨h1, h1', hi1⟩ <;>
          rcases (hchar q w sb sc hb hc).1 hqw with h2 | ⟨h2, h2', hi2⟩
        · exact (hchar p w sa sc ha hc).2 (Or.inl (lexLt_trans h1 h2))
        · have : sb = sc := lexLt_connex h2 h2'
          subst this
          exact (hchar p w sa sb ha hc).2 (Or.inl h1)
        · have : sa = sb := lexLt_connex h1 h1'
          subst this
          exact (hchar p w sa sc ha hc).2 (Or.inl h2)
        · have e1 : sa = sb := lexLt_connex h1 h1'
          subst e1
          have e2 : sa = sc := lexLt_connex h2 h2'
          subst e2
          exact (hchar p w sa sa ha hc).2
            (Or.inr ⟨lexLt_irrefl sa, lexLt_irrefl sa, le_trans hi1 hi2⟩)
    have hsorted2 : (sortPairs fn entries).Pairwise
        (fun p q => jsLtP (getProp q.2) (getProp p.2) = false) := by
      refine hsorted.imp_of_mem ?_
      intro p q hp hq hpq
      obtain ⟨sa, ha⟩ := hval p (hmemp p hp)
      obtain ⟨sb, hb⟩ := hval q (hmemp q hq)
      rw [hb, ha]
      show lexLt sb sa = false
      rcases (hchar p q sa sb ha hb).1 hpq with h1 | ⟨-, h2, -⟩
      · exact lexLt_asymm h1
      · exact h2
    exact List.Pairwise.map Prod.snd (fun a b h => h) hsorted2
  · -- descending for numeric properties
    intro hnum
    have hval : ∀ p : Nat × τ, p ∈ enumF 0 entries →
        ∃ n, getProp p.2 = .vnum n := by
      intro p hp
      cases h : getProp p.2 with
      | vnum n => exact ⟨n, rfl⟩
      | vstr s =>
        have := hnum p.2 (mem_enumF_snd hp)
        rw [h] at this
        simp [PVal.isStr] at this
    have hchar : ∀ p q : Nat × τ, ∀ na nb,
        getProp p.2 = .vnum na → getProp q.2 = .vnum nb →
        (r p q = true ↔ (nb < na ∨ (na = nb ∧ p.1 ≤ q.1))) := by
      intro p q na nb ha hb
      rw [hr]
      rw [decide_eq_true_eq, pairCmp_le_iff, hfn,
        orderCmp_num getProp _ _ na nb ha hb]
      by_cases h1 : na < nb <;> by_cases h2 : nb < na <;>
        simp [h1, h2] <;> omega
    have hsorted : (sortPairs fn entries).Pairwise
        (fun p q => r p q = true) := by
      refine insSort_sorted ?_ ?_
      · intro p hp q hq
        obtain ⟨na, ha⟩ := hval p hp
        obtain ⟨nb, hb⟩ := hval q hq
        rcases lt_trichotomy na nb with h1 | h1 | h1
        · exact Or.inr ((hchar q p nb na hb ha).2 (Or.inl h1))
        · rcases le_total p.1 q.1 with h3 | h3
          · exact Or.inl ((hchar p q na nb ha hb).2 (Or.inr ⟨h1, h3⟩))
          · exact Or.inr ((hchar q p nb na hb ha).2 (Or.inr ⟨h1.symm, h3⟩))
        · exact Or.inl ((hchar p q na nb ha hb).2 (Or.inl h1))
      · intro p hp q hq w hw hpq hqw
        obtain ⟨na, ha⟩ := hval p hp
        obtain ⟨nb, hb⟩ := hval q hq
        obtain ⟨nc, hc⟩ := hval w hw
        have h1 := (hchar p q na nb ha hb).1 hpq
        have h2 := (hchar q w nb nc hb hc).1 hqw
        refine (hchar p w na nc ha hc).2 ?_
        rcases h1 with h1 | ⟨h1, hi1⟩ <;> rcases h2 with h2 | ⟨h2, hi2⟩
        · exact Or.inl (lt_trans h2 h1)
        · exact Or.inl (h2 ▸ h1)
        · exact Or.inl (h1 ▸ h2)
        · exact Or.inr ⟨h1.trans h2, le_trans hi1 hi2⟩
    have hsorted2 : (sortPairs fn entries).Pairwise
        (fun p q => jsLtP (getProp p.2) (getProp q.2) = false) := by
      refine hsorted.imp_of_mem ?_
      intro p q hp hq hpq
      obtain ⟨na, ha⟩ := hval p (hmemp p hp)
      obtain ⟨nb, hb⟩ := hval q (hmemp q hq)
      rw [ha, hb]
      show decide (na < nb) = false
      rcases (hchar p q na nb ha hb).1 hpq with h1 | ⟨h1, -⟩
      · simp
        omega
      · simp [h1]
    exact List.Pairwise.map Prod.snd (fun a b h => h) hsorted2

/-- Witness for C8: a string-valued queue sorts ascending, a numeric one
descending. -/
theorem c8_order_asymmetry_witness :
    ((collectionOrderProp id [PVal.vstr (toL "b"), PVal.vstr (toL "a")]).Perm
        [PVal.vstr (toL "b"), PVal.vstr (toL "a")] ∧
      (collectionOrderProp id
          [PVal.vstr (toL "b"), PVal.vstr (toL "a")]).Pairwise
        (fun a b => jsLtP (id b) (id a) = false)) ∧
    (collectionOrderProp id [PVal.vnum 1, PVal.vnum 5]).Pairwise
      (fun a b => jsLtP (id a) (id b) = false) :=
  ⟨⟨(c8_order_asymmetry id [PVal.vstr (toL "b"), PVal.vstr (toL "a")]).1,
    (c8_order_asymmetry id [PVal.vstr (toL "b"), PVal.vstr (toL "a")]).2.1
      (by decide)⟩,
    (c8_order_asymmetry id [PVal.vnum 1, PVal.vnum 5]).2.2 (by decide)⟩

/-! ## Claim C9 — rendering keeps exactly the resolved tracks -/

/-- Each URI followed by a newline, concatenated — the raw accumulator
value built by `toURIs` before the final trim. -/
def concatNl (us : List (List Char)) : List Char :=
  (us.map (fun u => u ++ [Char.ofNat 10])).flatten

theorem toURIs_foldl (entries : List CEntry) (acc : List Char) :
    entries.foldl (fun acc e =>
        match e with
        | .track t =>
          if t.uri ≠ [] then acc ++ t.uri ++ [Char.ofNat 10] else acc
        | _ => acc) acc = acc ++ concatNl (uriList entries) := by
  induction entries generalizing acc with
  | nil => simp [uriList, concatNl]
  | cons e es ih =>
    cases e with
    | track t =>
      by_cases hu : t.uri = []
      · simp only [List.foldl_cons, hu, ne_eq, not_true_eq_false, if_false]
        rw [ih]
        simp [uriList, concatNl, List.filterMap_cons, hu]
      · simp only [List.foldl_cons, hu, ne_eq, not_false_eq_true, if_true]
        rw [ih]
        simp [uriList, concatNl, List.filterMap_cons, hu]
    | album a =>
      simp only [List.foldl_cons]
      rw [ih]
      simp [uriList, concatNl, List.filterMap_cons]
    | other =>
      simp only [List.foldl_cons]
      rw [ih]
      simp [uriList, concatNl, List.filterMap_cons]

theorem concatNl_eq_joinNl (u : List Char) (us : List (List Char)) :
    concatNl (u :: us) = joinNl (u :: us) ++ [Char.ofNat 10] := by
  induction us generalizing u with
  | nil => simp [concatNl, joinNl]
  | cons v vs ih =>
    show (u ++ [Char.ofNat 10]) ++ concatNl (v :: vs) = _
    rw [ih v]
    simp [joinNl]

theorem joinNl_ne_nil (u : List Char) (us : List (List Char))
    (hu : u ≠ []) : joinNl (u :: us) ≠ [] := by
  cases us with
  | nil => simpa [joinNl] using hu
  | cons v vs =>
    simp only [joinNl]
    intro h
    exact hu (List.append_eq_nil.1 h).1

theorem joinNl_head (u : List Char) (us : List (List Char)) (d : Char)
    (hd : (joinNl (u :: us)).head? = some d) (hu : u ≠ []) : d ∈ u := by
  cases us with
  | nil =>
    simp only [joinNl] at hd
    cases u with
    | nil => exact absurd rfl hu
    | cons a t =>
      simp at hd
      simp [← hd]
  | cons v vs =>
    simp only [joinNl] at hd
    cases u with
    | nil => exact absurd rfl hu
    | cons a t =>
      simp at hd
      simp [← hd]

theorem joinNl_last (u : List Char) (us : List (List Char))
    (hall : ∀ w ∈ u :: us, w ≠ [] ∧ ∀ c ∈ w, jsIsSpace c = false)
    (d : Char) (hd : (joinNl (u :: us)).reverse.head? = some d) :
    jsIsSpace d = false := by
  induction us generalizing u with
  | nil =>
    simp only [joinNl] at hd
    have hdm : d ∈ u.reverse := by
      cases hur : u.reverse with
      | nil => rw [hur] at hd; cases hd
      | cons a t =>
        rw [hur] at hd
        simp at hd
        simp [hd]
    exact (hall u (by simp)).2 d (List.mem_reverse.1 hdm)
  | cons v vs ih =>
    have hJ : joinNl (v :: vs) ≠ [] :=
      joinNl_ne_nil v vs (hall v (by simp)).1
    simp only [joinNl] at hd
    rw [List.reverse_append, List.reverse_cons] at hd
    cases hJr : (joinNl (v :: vs)).reverse with
    | nil => exact absurd (by simpa using congrArg List.reverse hJr) hJ
    | cons a t =>
      rw [hJr] at hd
      simp at hd
      refine ih v ?_ ?_
      · intro w hw
        exact hall w (List.mem_cons_of_mem u hw)
      · rw [hJr, ← hd]
        rfl

theorem jsTrim_append_ws (l : List Char) (c : Char)
    (hc : jsIsSpace c = true) (hne : l ≠ [])
    (hhead : ∀ d, l.head? = some d → jsIsSpace d = false)
    (hlast : ∀ d, l.reverse.head? = some d → jsIsSpace d = false) :
    jsTrim (l ++ [c]) = l := by
  cases l with
  | nil => exact absurd rfl hne
  | cons a t =>
    have ha : jsIsSpace a = false := hhead a rfl
    unfold jsTrim
    rw [List.cons_append, List.dropWhile_cons]
    simp only [ha, Bool.false_eq_true, if_false]
    have hrw : (a :: (t ++ [c])).reverse = c :: (t.reverse ++ [a]) := by
      simp
    rw [hrw, List.dropWhile_cons]
    simp only [hc, if_true]
    rw [← List.reverse_cons]
    cases hrev : (a :: t).reverse with
    | nil =>
      have := congrArg List.length hrev
      simp at this
    | cons b rb =>
      have hb : jsIsSpace b = false := hlast b (by rw [hrev]; rfl)
      rw [List.dropWhile_cons]
      simp only [hb, Bool.false_eq_true, if_false]
      rw [← hrev, List.reverse_reverse]

theorem uriList_ne_nil (entries : List CEntry) (u : List Char)
    (hu : u ∈ uriList entries) : u ≠ [] := by
  unfold uriList at hu
  rcases List.mem_filterMap.1 hu with ⟨e, -, he⟩
  cases e with
  | track t =>
    by_cases h : t.uri = []
    · simp [h] at he
    · simp only [h, ne_eq, not_false_eq_true, if_true,
        Option.some.injEq] at he
      rw [← he]
      exact h
  | album a => cases he
  | other => cases he

/-- C9: the rendered URI list is exactly the newline-joined list of the
URIs of the entries that are `Track`s with a nonempty resolved URI, in
queue order — albums, non-track entries and tracks that failed to resolve
(empty `uri`) are silently omitted, and rendering never fails.  (The
whitespace-freeness hypothesis reflects that Spotify URIs contain no
whitespace; the final `trim` of `toURIs` only removes the trailing
newline.) -/
theorem c9_rendered_tracks (entries : List CEntry)
    (h : ∀ u ∈ uriList entries, ∀ c ∈ u, jsIsSpace c = false) :
    toURIs entries = joinNl (uriList entries) := by
  unfold toURIs
  rw [toURIs_foldl entries [], List.nil_append]
  cases huris : uriList entries with
  | nil => simp [concatNl, jsTrim, joinNl]
  | cons u us =>
    rw [concatNl_eq_joinNl]
    have hall : ∀ w ∈ u :: us, w ≠ [] ∧ ∀ c ∈ w, jsIsSpace c = false := by
      intro w hw
      have hwmem : w ∈ uriList entries := huris ▸ hw
      exact ⟨uriList_ne_nil entries w hwmem, h w hwmem⟩
    refine jsTrim_append_ws _ _ (by decide)
      (joinNl_ne_nil u us (hall u (by simp)).1) ?_ ?_
    · intro d hd
      exact (hall u (by simp)).2 d
        (joinNl_head u us d hd (hall u (by simp)).1)
    · intro d hd
      exact joinNl_last u us hall d hd

/-- A concrete queue for the C9 witness: a resolved track, an unresolved
track (empty `uri`), an album with a URI, a non-track entry, and a second
resolved track. -/
def c9entries : List CEntry :=
  [.track { uri := toL "spotify:track:aaa", title := toL "A - X" },
   .track { entry := toL "unresolvable" },
   .album { uri := toL "spotify:album:zzz" },
   .other,
   .track { uri := toL "spotify:track:bbb", title := toL "B - Y" }]

/-- Witness for C9: only the two resolved tracks are rendered, in order. -/
theorem c9_rendered_tracks_witness :
    toURIs c9entries = joinNl (uriList c9entries) :=
  c9_rendered_tracks c9entries (by decide)

/-! ## Claim C10 — `hasArtist` substring semantics -/

theorem boolEq_of_iff {a b : Bool} (h : a = true ↔ b = true) : a = b := by
  cases a <;> cases b <;> simp_all

theorem isPre_iff (q l : List Char) :
    q.isPrefixOf l = true ↔ ∃ t, l = q ++ t := by
  induction q generalizing l with
  | nil => simp [List.isPrefixOf]
  | cons a as ih =>
    cases l with
    | nil =>
      simp [List.isPrefixOf]
    | cons b bs =>
      simp only [List.isPrefixOf, Bool.and_eq_true, beq_iff_eq, ih,
        List.cons_append, List.cons.injEq]
      constructor
      · rintro ⟨h1, t, h2⟩
        exact ⟨t, h1.symm, h2⟩
      · rintro ⟨t, h1, h2⟩
        exact ⟨h1.symm, t, h2⟩

theorem hasSub_iff (q l : List Char) :
    hasSub q l = true ↔ ∃ u v, l = u ++ q ++ v := by
  induction l with
  | nil =>
    simp only [hasSub, List.isEmpty_iff]
    constructor
    · intro h
      exact ⟨[], [], by simp [h]⟩
    · rintro ⟨u, v, h⟩
      rcases List.append_eq_nil.1 h.symm with ⟨h1, h2⟩
      exact (List.append_eq_nil.1 h1).2
  | cons c t ih =>
    simp only [hasSub, Bool.or_eq_true, isPre_iff, ih]
    constructor
    · rintro (⟨v, hv⟩ | ⟨u, v, huv⟩)
      · exact ⟨[], v, by simp [hv]⟩
      · exact ⟨c :: u, v, by simp [huv]⟩
    · rintro ⟨u, v, huv⟩
      cases u with
      | nil =>
        exact Or.inl ⟨v, by simpa using huv⟩
      | cons x xs =>
        simp only [List.cons_append, List.cons.injEq] at huv
        exact Or.inr ⟨xs, v, huv.2⟩

theorem hasSub_reverse (q l : List Char) :
    hasSub q l = hasSub q.reverse l.reverse := by
  refine boolEq_of_iff ?_
  rw [hasSub_iff, hasSub_iff]
  constructor
  · rintro ⟨u, v, h⟩
    exact ⟨v.reverse, u.reverse, by simp [h]⟩
  · rintro ⟨u, v, h⟩
    refine ⟨v.reverse, u.reverse, ?_⟩
    have := congrArg List.reverse h
    simpa using this

theorem hasSub_ws_prepend (q pre l : List Char)
    (hq : ∀ d, q.head? = some d → jsIsSpace d = false)
    (hpre : ∀ c ∈ pre, jsIsSpace c = true) :
    hasSub q (pre ++ l) = hasSub q l := by
  induction pre with
  | nil => simp
  | cons c cs ih =>
    have hc : jsIsSpace c = true := hpre c (by simp)
    have hrest : hasSub q (cs ++ l) = hasSub q l :=
      ih (fun d hd => hpre d (List.mem_cons_of_mem c hd))
    rw [List.cons_append]
    show (q.isPrefixOf (c :: (cs ++ l)) || hasSub q (cs ++ l)) = hasSub q l
    cases q with
    | nil =>
      have h1 : hasSub ([] : List Char) (cs ++ l) = true := by
        rw [hasSub_iff]
        exact ⟨[], cs ++ l, by simp⟩
      have h2 : hasSub ([] : List Char) l = true := by
        rw [hasSub_iff]
        exact ⟨[], l, by simp⟩
      simp [h1, h2]
    | cons d ds =>
      have hd : jsIsSpace d = false := hq d rfl
      have hne : (d == c) = false := by
        simp only [beq_eq_false_iff_ne, ne_eq]
        intro h
        rw [h] at hd
        rw [hd] at hc
        cases hc
      show ((d == c && ds.isPrefixOf (cs ++ l)) || hasSub (d :: ds) (cs ++ l))
          = hasSub (d :: ds) l
      rw [hne]
      simpa using hrest

theorem dropWhile_head_false (p : Char → Bool) (l : List Char) (d : Char)
    (hd : (l.dropWhile p).head? = some d) : p d = false := by
  induction l with
  | nil => cases hd
  | cons c t ih =>
    rw [List.dropWhile_cons] at hd
    by_cases h : p c = true
    · rw [if_pos h] at hd
      exact ih hd
    · rw [if_neg h] at hd
      simp at hd
      rw [← hd]
      simpa using h

theorem hasSub_jsTrim (q s : List Char)
    (hq1 : ∀ d, q.head? = some d → jsIsSpace d = false)
    (hq2 : ∀ d, q.reverse.head? = some d → jsIsSpace d = false) :
    hasSub q (jsTrim s) = hasSub q s := by
  have step1 : ∀ l : List Char, hasSub q (l.dropWhile jsIsSpace) = hasSub q l := by
    intro l
    conv_rhs => rw [← List.takeWhile_append_dropWhile jsIsSpace l]
    exact (hasSub_ws_prepend q (l.takeWhile jsIsSpace) (l.dropWhile jsIsSpace)
      hq1 (fun c hc => List.mem_takeWhile_imp hc)).symm
  have step2 : ∀ l : List Char,
      hasSub q.reverse (l.dropWhile jsIsSpace) = hasSub q.reverse l := by
    intro l
    conv_rhs => rw [← List.takeWhile_append_dropWhile jsIsSpace l]
    exact (hasSub_ws_prepend q.reverse (l.takeWhile jsIsSpace)
      (l.dropWhile jsIsSpace) hq2 (fun c hc => List.mem_takeWhile_imp hc)).symm
  unfold jsTrim
  rw [hasSub_reverse q, List.reverse_reverse, step2, hasSub_reverse q.reverse,
    List.reverse_reverse, List.reverse_reverse, step1]

theorem jsIsSpace_jsToLower (c : Char) :
    jsIsSpace (jsToLower c) = jsIsSpace c := by
  unfold jsToLower
  by_cases h : 65 ≤ c.toNat ∧ c.toNat ≤ 90
  · rw [if_pos h]
    have hval : (Char.ofNat (c.toNat + 32)).toNat = c.toNat + 32 := by
      unfold Char.ofNat
      rw [dif_pos (Or.inl (by omega : c.toNat + 32 < 55296))]
      rfl
    refine boolEq_of_iff ?_
    unfold jsIsSpace
    rw [hval]
    simp only [Bool.or_eq_true, decide_eq_true_eq]
    omega
  · rw [if_neg h]

theorem jsTrim_head_nonws (q : List Char) (d : Char)
    (hd : (jsTrim q).head? = some d) : jsIsSpace d = false := by
  unfold jsTrim at hd
  have hsplit := List.takeWhile_append_dropWhile jsIsSpace
    ((q.dropWhile jsIsSpace).reverse)
  have hq : q.dropWhile jsIsSpace =
      ((q.dropWhile jsIsSpace).reverse.dropWhile jsIsSpace).reverse ++
        ((q.dropWhile jsIsSpace).reverse.takeWhile jsIsSpace).reverse := by
    have h2 := congrArg List.reverse hsplit
    rw [List.reverse_append, List.reverse_reverse] at h2
    exact h2.symm
  have hd2 : (q.dropWhile jsIsSpace).head? = some d := by
    rw [hq, List.head?_append, hd]
    rfl
  exact dropWhile_head_false _ _ _ hd2

theorem jsTrim_last_nonws (q : List Char) (d : Char)
    (hd : (jsTrim q).reverse.head? = some d) : jsIsSpace d = false := by
  unfold jsTrim at hd
  rw [List.reverse_reverse] at hd
  exact dropWhile_head_false _ _ _ hd

theorem lower_trim_head (q : List Char) (d : Char)
    (hd : (lowerStr (jsTrim q)).head? = some d) : jsIsSpace d = false := by
  unfold lowerStr at hd
  rw [List.head?_map] at hd
  cases he : (jsTrim q).head? with
  | none => rw [he] at hd; cases hd
  | some e =>
    rw [he] at hd
    simp only [Option.map_some'] at hd
    cases hd
    rw [jsIsSpace_jsToLower]
    exact jsTrim_head_nonws q e he

theorem lower_trim_last (q : List Char) (d : Char)
    (hd : (lowerStr (jsTrim q)).reverse.head? = some d) :
    jsIsSpace d = false := by
  unfold lowerStr at hd
  rw [← List.map_reverse, List.head?_map] at hd
  cases he : (jsTrim q).reverse.head? with
  | none => rw [he] at hd; cases hd
  | some e =>
    rw [he] at hd
    simp only [Option.map_some'] at hd
    cases hd
    rw [jsIsSpace_jsToLower]
    exact jsTrim_last_nonws q e he

theorem any_congr {α : Type} {l : List α} {f g : α → Bool}
    (h : ∀ x ∈ l, f x = g x) : l.any f = l.any g := by
  induction l with
  | nil => rfl
  | cons x xs ih =>
    simp only [List.any_cons]
    rw [h x (by simp), ih (fun y hy => h y (List.mem_cons_of_mem x hy))]

/-- The C10 claim's reading of `hasArtist`: the argument, trimmed and
lower-cased, occurs as a substring of some (lower-cased) artist **name**
of the track — with no trimming of the stored name. -/
def hasArtistSpec (self : TrackS) (q : List Char) : Bool :=
  (match self.artists with
    | none => []
    | some l => l).any
    (fun ta => hasSub (lowerStr (jsTrim q)) (lowerStr ta))

theorem hasArtist_eq_spec (self : TrackS) (q : List Char) :
    hasArtist self q = hasArtistSpec self q := by
  unfold hasArtist hasArtistSpec
  refine any_congr ?_
  intro ta _
  exact hasSub_jsTrim (lowerStr (jsTrim q)) (lowerStr ta)
    (lower_trim_head q) (lower_trim_last q)

/-- C10: `hasArtist` returns true exactly when the argument, trimmed and
lower-cased, occurs as a substring of some artist name of the track,
compared case-insensitively (the trimming the code also applies to each
stored name is irrelevant, because the trimmed-and-lowered needle can
never overlap the name's leading or trailing whitespace); consequently
the Artist-resolution filter keeps exactly the tracks with such a
substring match whenever an artist name is set, and keeps everything
otherwise. -/
theorem c10_hasArtist_substring :
    (∀ (self : TrackS) (q : List Char),
      hasArtist self q = hasArtistSpec self q) ∧
    (∀ (name : List Char) (tracks : List TrackS),
      artistTrackFilter name tracks =
        tracks.filter (fun t =>
          if name ≠ [] then hasArtistSpec t name else true)) := by
  refine ⟨hasArtist_eq_spec, ?_⟩
  intro name tracks
  unfold artistTrackFilter
  refine List.filter_congr ?_
  intro t ht
  by_cases h : name = []
  · simp [h]
  · simp [h, hasArtist_eq_spec]
